import Mathlib

set_option maxHeartbeats 1000000

/-!
Shallow embedding of the unyaffs YAFFS2 image extractor
(sources: `unyaffs.c`, `unyaffs.h`).

Modelling conventions:
* 32-bit unsigned fields (`objectId`, `chunkId`, `byteCount`, times, mode,
  uid, gid, rdev) are `Nat`s; `fileSize` is declared `int` in the C header,
  so it is an `Int`; where C wraps a 32-bit signed subtraction the model
  applies `toInt32` explicitly.
* C strings (`name`, `alias`, `path_name`) are `List Char`.
* A chunk buffer is overlaid in C both as a `yaffs_ObjectHeader` and as raw
  file payload; `Chunk` carries both views (`oh`, `payload`) together with
  the packed tags (`tag`) parsed from the spare area.
* `prt_err` with nonzero status (`exit(1)`) is modelled by `Except.error`
  with an `Err` constructor naming the message; `prt_err` with status 0
  (a warning) is an emitted `Event`.
* Filesystem syscalls are modelled as emitted `Event`s (the POSIX layer is
  an external collaborator); their failure branches are not modelled.
* The outer `while (read_chunk()) process_chunk();` loop is given explicit
  fuel; every theorem supplies fuel at least the length of the chunk list,
  which the loop never exceeds since each iteration consumes one chunk or
  more.
-/

/-- HASH_SIZE from unyaffs.c. -/
def HASH_SIZE : Nat := 7001

/-- MAX_WARN from unyaffs.c. -/
def MAX_WARN : Nat := 20

/-- YAFFS_OBJECTID_ROOT from unyaffs.c. -/
def YAFFS_OBJECTID_ROOT : Nat := 1

/-- Ordinal of YAFFS_OBJECT_TYPE_UNKNOWN in the yaffs_ObjectType enum. -/
def TYPE_UNKNOWN : Nat := 0

/-- Ordinal of YAFFS_OBJECT_TYPE_FILE. -/
def TYPE_FILE : Nat := 1

/-- Ordinal of YAFFS_OBJECT_TYPE_SYMLINK. -/
def TYPE_SYMLINK : Nat := 2

/-- Ordinal of YAFFS_OBJECT_TYPE_DIRECTORY. -/
def TYPE_DIRECTORY : Nat := 3

/-- Ordinal of YAFFS_OBJECT_TYPE_HARDLINK. -/
def TYPE_HARDLINK : Nat := 4

/-- Ordinal of YAFFS_OBJECT_TYPE_SPECIAL. -/
def TYPE_SPECIAL : Nat := 5

/-- yaffs_PackedTags2TagsPart from unyaffs.h (the ECC words are ignored by
the program and omitted). -/
structure TagsPart where
  sequenceNumber : Nat
  objectId : Nat
  chunkId : Nat
  byteCount : Nat
deriving DecidableEq

/-- yaffs_ObjectHeader from unyaffs.h; the raw `type` word is kept as a
`Nat` (the C code compares the enum against the ordinals above).  Fields
the program never reads (checksum, ctime, shadowing and reserved words)
are omitted; the C field `alias` is called `aliasName` because `alias` is
reserved in Lean. -/
structure ObjectHeader where
  type : Nat
  parentObjectId : Nat
  name : List Char
  yst_mode : Nat
  yst_uid : Nat
  yst_gid : Nat
  yst_atime : Nat
  yst_mtime : Nat
  fileSize : Int
  equivalentObjectId : Nat
  aliasName : List Char
  yst_rdev : Nat
deriving DecidableEq

/-- One chunk-plus-spare record as read by `read_chunk`: the spare parses
as `tag`, while the chunk area is visible both as an object header (`oh`)
and as raw payload bytes (`payload`), exactly as the C code overlays the
same buffer. -/
structure Chunk where
  oh : ObjectHeader
  tag : TagsPart
  payload : List Nat
deriving DecidableEq

/-- struct _object from unyaffs.c (the `next` pointer is represented by
position inside a hash bucket list). -/
structure Obj where
  id : Nat
  type : Nat
  prev_dir_id : Nat
  atime : Nat
  mtime : Nat
  path_name : List Char
deriving DecidableEq

/-- obj_list, the hash table of objects: an array of HASH_SIZE bucket
chains indexed by `id % HASH_SIZE`. -/
structure HTable where
  buckets : Nat → List Obj

/-- The empty hash table (all buckets NULL). -/
def HTable.empty : HTable := ⟨fun _ => []⟩

/-- Insertion from add_object / init_obj_list: prepend to the bucket chain
at index `id % HASH_SIZE` (`obj->next = obj_list[idx]; obj_list[idx] = obj`). -/
def HTable.insert (t : HTable) (o : Obj) : HTable :=
  ⟨fun i => if i = o.id % HASH_SIZE then o :: t.buckets i else t.buckets i⟩

/-- get_object from unyaffs.c: walk the bucket chain for `id % HASH_SIZE`
comparing full ids. -/
def get_object (t : HTable) (id : Nat) : Option Obj :=
  (t.buckets (id % HASH_SIZE)).find? (fun o => o.id == id)

/-- Update the atime/mtime of the first chain entry with the given id
(the C code mutates the object found by `get_object` in place). -/
def updTimes (id a m : Nat) : List Obj → List Obj
  | [] => []
  | o :: os =>
    if o.id == id then { o with atime := a, mtime := m } :: os
    else o :: updTimes id a m os

/-- Apply `updTimes` inside the hash table, at the bucket of `id`. -/
def HTable.setTimes (t : HTable) (id a m : Nat) : HTable :=
  ⟨fun i => if i = id % HASH_SIZE then updTimes id a m (t.buckets i) else t.buckets i⟩

/-- The mutable globals of unyaffs.c that the decoder threads through:
the object table, the directory-stack head `last_dir_id` and
`warn_count`. -/
structure State where
  tab : HTable
  last_dir_id : Nat
  warn : Nat

/-- The synthetic root object installed by init_obj_list: id 1, type
DIRECTORY, prev_dir_id 0, times 0, path ".". -/
def rootObject : Obj :=
  ⟨YAFFS_OBJECTID_ROOT, TYPE_DIRECTORY, 0, 0, 0, ['.']⟩

/-- init_obj_list from unyaffs.c: empty table plus the root object,
`last_dir_id = 0` (and `warn_count = 0` at program start). -/
def init_obj_list : State := ⟨HTable.empty.insert rootObject, 0, 0⟩

/-- Fatal errors: each constructor corresponds to one `prt_err(1, ...)`
call site (exit status 1).  `outOfFuel` is the artificial result of
exhausting the loop fuel and appears in no theorem with adequate fuel. -/
inductive Err where
  | outOfFuel
  | brokenImage
  | givingUp
  | missingRoot
  | rootNotDirectory
  | illegalType
  | illegalName
  | duplicateId
  | invalidParent
  | parentNotDirectory
  | invalidEquivalentObjectId
deriving DecidableEq

/-- add_object from unyaffs.c.  Returns the updated state together with
the object the C function would return a pointer to.  The final
`obj->atime = oh->yst_atime; obj->mtime = oh->yst_mtime;` assignment of
the C code is folded into each branch. -/
def add_object (st : State) (oh : ObjectHeader) (pt : TagsPart) :
    Except Err (State × Obj) :=
  let obj0 := get_object st.tab pt.objectId
  if pt.objectId = YAFFS_OBJECTID_ROOT then
    match obj0 with
    | none => .error .missingRoot
    | some o =>
      if oh.type ≠ TYPE_DIRECTORY then .error .rootNotDirectory
      else
        let last := if st.last_dir_id = 0 then YAFFS_OBJECTID_ROOT else st.last_dir_id
        let o' := { o with atime := oh.yst_atime, mtime := oh.yst_mtime }
        .ok ({ st with
                tab := st.tab.setTimes pt.objectId oh.yst_atime oh.yst_mtime,
                last_dir_id := last }, o')
  else
    if oh.type ≠ TYPE_FILE ∧ oh.type ≠ TYPE_DIRECTORY ∧ oh.type ≠ TYPE_SYMLINK ∧
       oh.type ≠ TYPE_HARDLINK ∧ oh.type ≠ TYPE_SPECIAL ∧ oh.type ≠ TYPE_UNKNOWN then
      .error .illegalType
    else if oh.name = [] ∨ '/' ∈ oh.name ∨ oh.name = ['.'] ∨ oh.name = ['.', '.'] then
      .error .illegalName
    else if obj0.isSome then
      .error .duplicateId
    else
      match get_object st.tab oh.parentObjectId with
      | none => .error .invalidParent
      | some parent =>
        if parent.type ≠ TYPE_DIRECTORY then .error .parentNotDirectory
        else
          let prev := if oh.type = TYPE_DIRECTORY then st.last_dir_id else 0
          let last := if oh.type = TYPE_DIRECTORY then pt.objectId else st.last_dir_id
          let path := if parent.path_name = ['.'] then oh.name
                      else parent.path_name ++ '/' :: oh.name
          let o : Obj := ⟨pt.objectId, oh.type, prev, oh.yst_atime, oh.yst_mtime, path⟩
          .ok ({ st with tab := st.tab.insert o, last_dir_id := last }, o)

/-- set_dirs_utime from unyaffs.c, with explicit fuel: starting from
`last_dir_id`, follow `prev_dir_id` links while the id is nonzero and
resolvable, emitting one `(path, atime, mtime)` utime application per
visited directory. -/
def set_dirs_utime : Nat → HTable → Nat → List (List Char × Nat × Nat)
  | 0, _, _ => []
  | fuel + 1, tab, id =>
    if id = 0 then []
    else
      match get_object tab id with
      | none => []
      | some o => (o.path_name, o.atime, o.mtime) :: set_dirs_utime fuel tab o.prev_dir_id

/-- Classification performed at the top of process_chunk, which branches
on `byteCount` alone: 0xffffffff is an erased chunk, anything other than
0xffff is an invalid header (warning), 0xffff is an object header. -/
inductive ChunkKind where
  | empty
  | malformed
  | header
deriving DecidableEq

/-- The branch condition of process_chunk lines 396-404. -/
def classifyTag (t : TagsPart) : ChunkKind :=
  if t.byteCount = 0xffffffff then .empty
  else if t.byteCount ≠ 0xffff then .malformed
  else .header

/-- Two's-complement reinterpretation of a 32-bit result as a signed int:
the effect of storing `int - unsigned` back into an `int` on the targets
unyaffs supports. -/
def toInt32 (z : Int) : Int :=
  let m := z % 4294967296
  if m < 2147483648 then m else m - 4294967296

/-- The FILE data loop of process_chunk (extract mode, lines 431-438):
while `remain > 0`, take the next chunk (none left means the fatal
"Broken image file"), write `s = min remain byteCount` payload bytes and
decrease `remain` by `s`.  Returns the bytes written and the unconsumed
suffix of the stream. -/
def consumeData : Int → List Chunk → Option (List Nat × List Chunk)
  | remain, l =>
    if remain ≤ 0 then some ([], l)
    else
      match l with
      | [] => none
      | c :: rest =>
        let s : Int := min remain (c.tag.byteCount : Int)
        match consumeData (remain - s) rest with
        | none => none
        | some (bs, l') => some (c.payload.take s.toNat ++ bs, l')

/-- The FILE data loop of process_chunk (list mode, lines 415-420):
while `remain > 0`, take the next chunk and do `remain -= byteCount`,
a 32-bit signed subtraction.  Returns the unconsumed suffix. -/
def skipData : Int → List Chunk → Option (List Chunk)
  | remain, l =>
    if remain ≤ 0 then some l
    else
      match l with
      | [] => none
      | c :: rest => skipData (toInt32 (remain - (c.tag.byteCount : Int))) rest

/-- Observable actions of one run: filesystem syscalls issued by extract
mode, the path lines printed by list mode (`opt_list` without
`opt_verbose`), and the non-fatal "Invalid header" warning. -/
inductive Event where
  | creatFile (path : List Char) (mode : Nat) (content : List Nat)
  | mkdirE (path : List Char) (mode : Nat)
  | symlinkE (target path : List Char)
  | linkE (target path : List Char)
  | mknodE (path : List Char) (mode rdev : Nat)
  | chownE (path : List Char) (uid gid : Nat)
  | chmodE (path : List Char) (mode : Nat)
  | utimeE (path : List Char) (atime mtime : Nat)
  | printPath (path : List Char)
  | warnInvalid
deriving DecidableEq

/-- True for the events that touch the output filesystem. -/
def isFsEvent : Event → Bool
  | .printPath _ => false
  | .warnInvalid => false
  | _ => true

/-- Project the path out of a printPath event. -/
def pathOfPrint : Event → Option (List Char)
  | .printPath p => some p
  | _ => none

/-- The hardlink target lookup of process_chunk lines 460-464: fatal
"Invalid equivalentObjectId" when the target id is not in the object
table; no other property of the target is checked. -/
def hardlinkCheck (t : HTable) (oh : ObjectHeader) : Except Err Obj :=
  match get_object t oh.equivalentObjectId with
  | none => .error .invalidEquivalentObjectId
  | some eq_obj => .ok eq_obj

/-- STD_PERMS = S_IRWXU|S_IRWXG|S_IRWXO. -/
def STD_PERMS : Nat := 0o777

/-- EXTRA_PERMS = S_ISUID|S_ISGID|S_ISVTX. -/
def EXTRA_PERMS : Nat := 0o7000

/-- The extract-mode switch of process_chunk (lines 425-494) for one
object, on a Linux build (HAS_LUTIMES defined, so symlinks also receive
utime).  `st` is the state after add_object, `obj` the object it
returned; returns the emitted syscall events and the chunk stream left
after the FILE data loop.  Syscalls themselves are external and modelled
as always succeeding. -/
def materialize (st : State) (oh : ObjectHeader) (pt : TagsPart) (obj : Obj)
    (rest : List Chunk) : Except Err (List Event × List Chunk) :=
  if oh.type = TYPE_FILE then
    match consumeData oh.fileSize rest with
    | none => .error .brokenImage
    | some (content, rest') =>
      .ok (Event.creatFile obj.path_name (oh.yst_mode &&& STD_PERMS) content ::
           Event.chownE obj.path_name oh.yst_uid oh.yst_gid ::
           ((if oh.yst_mode &&& EXTRA_PERMS ≠ 0 then [Event.chmodE obj.path_name oh.yst_mode] else []) ++
            [Event.utimeE obj.path_name oh.yst_atime oh.yst_mtime]), rest')
  else if oh.type = TYPE_SYMLINK then
    .ok ([Event.symlinkE oh.aliasName obj.path_name,
          Event.chownE obj.path_name oh.yst_uid oh.yst_gid,
          Event.utimeE obj.path_name oh.yst_atime oh.yst_mtime], rest)
  else if oh.type = TYPE_DIRECTORY then
    .ok ((if pt.objectId ≠ YAFFS_OBJECTID_ROOT then [Event.mkdirE obj.path_name (oh.yst_mode &&& STD_PERMS)] else []) ++
         Event.chownE obj.path_name oh.yst_uid oh.yst_gid ::
         (if pt.objectId = YAFFS_OBJECTID_ROOT ∨ oh.yst_mode &&& EXTRA_PERMS ≠ 0 then [Event.chmodE obj.path_name oh.yst_mode] else []), rest)
  else if oh.type = TYPE_HARDLINK then
    match hardlinkCheck st.tab oh with
    | .error e => .error e
    | .ok eq_obj => .ok ([Event.linkE eq_obj.path_name obj.path_name], rest)
  else if oh.type = TYPE_SPECIAL then
    .ok ([Event.mknodE obj.path_name oh.yst_mode oh.yst_rdev,
          Event.chownE obj.path_name oh.yst_uid oh.yst_gid,
          Event.utimeE obj.path_name oh.yst_atime oh.yst_mtime], rest)
  else
    .ok ([], rest)

/-- The main loop `while (read_chunk()) process_chunk();` over a finite
chunk stream, in either mode (`optList` is `opt_list`, with
`opt_verbose = 0`).  Returns the final state, the events emitted, and the
ordered list of paths of the objects whose header records were processed
by add_object.  Fuel bounds the number of outer iterations; each
iteration consumes at least one chunk, so fuel `≥` stream length is
always enough. -/
def runImage (optList : Bool) : Nat → State → List Chunk →
    Except Err (State × List Event × List (List Char))
  | _, st, [] => .ok (st, [], [])
  | 0, _, _ :: _ => .error .outOfFuel
  | fuel + 1, st, c :: rest =>
    match classifyTag c.tag with
    | .empty => runImage optList fuel st rest
    | .malformed =>
      if st.warn + 1 ≥ MAX_WARN then .error .givingUp
      else
        match runImage optList fuel { st with warn := st.warn + 1 } rest with
        | .error e => .error e
        | .ok (st', evs, ps) => .ok (st', Event.warnInvalid :: evs, ps)
    | .header =>
      match add_object st c.oh c.tag with
      | .error e => .error e
      | .ok (st1, obj) =>
        if optList then
          match (if c.oh.type = TYPE_FILE then skipData c.oh.fileSize rest else some rest) with
          | none => .error .brokenImage
          | some rest' =>
            match runImage optList fuel st1 rest' with
            | .error e => .error e
            | .ok (st', evs, ps) =>
              .ok (st', Event.printPath obj.path_name :: evs, obj.path_name :: ps)
        else
          match materialize st1 c.oh c.tag obj rest with
          | .error e => .error e
          | .ok (evs, rest') =>
            match runImage optList fuel st1 rest' with
            | .error e => .error e
            | .ok (st', evs', ps) =>
              .ok (st', evs ++ evs', obj.path_name :: ps)

/-- Run add_object over a sequence of header records (the add_object
calls any execution of the main loop makes, in stream order). -/
def runHeaders : State → List (ObjectHeader × TagsPart) → Except Err State
  | st, [] => .ok st
  | st, (oh, pt) :: hs =>
    match add_object st oh pt with
    | .error e => .error e
    | .ok (st', _) => runHeaders st' hs

/-- The object ids of the non-root DIRECTORY headers of a record
sequence, in creation (stream) order. -/
def createdDirs : List (ObjectHeader × TagsPart) → List Nat
  | [] => []
  | (oh, pt) :: hs =>
    if pt.objectId ≠ YAFFS_OBJECTID_ROOT ∧ oh.type = TYPE_DIRECTORY then
      pt.objectId :: createdDirs hs
    else createdDirs hs

/-- Whether the root ends up at the bottom of the directory stack: true
exactly when a root header record occurs before the first non-root
DIRECTORY record (only then is `last_dir_id` still 0 when add_object
initializes it to the root id). -/
def rootInChain : List (ObjectHeader × TagsPart) → Bool
  | [] => false
  | (oh, pt) :: hs =>
    if pt.objectId = YAFFS_OBJECTID_ROOT then true
    else if oh.type = TYPE_DIRECTORY then false
    else rootInChain hs

/-- How a record sequence transforms the directory-stack id list (most
recent first): non-root directories push their id; a root header seeds
the stack with the root id when it is still empty. -/
def chainAfter : List (ObjectHeader × TagsPart) → List Nat → List Nat
  | [], l => l
  | (oh, pt) :: hs, l =>
    if pt.objectId = YAFFS_OBJECTID_ROOT then
      chainAfter hs (if l = [] then [YAFFS_OBJECTID_ROOT] else l)
    else if oh.type = TYPE_DIRECTORY then chainAfter hs (pt.objectId :: l)
    else chainAfter hs l

/-- The directory stack rooted at `id` consists exactly of the objects
`os`: each is resolvable in the table, links to the next via
`prev_dir_id`, and the last link is 0. -/
def chainIs (tab : HTable) : Nat → List Obj → Prop
  | id, [] => id = 0
  | id, o :: os => id = o.id ∧ get_object tab id = some o ∧ chainIs tab o.prev_dir_id os

/-- possible_layouts from unyaffs.c: the four supported
(chunk size, spare size) pairs, in ascending chunk size. -/
def possible_layouts : List (Nat × Nat) :=
  [(2048, 64), (4096, 128), (8192, 256), (16384, 512)]

/-- The look-ahead buffer as detect_chunk_size reads it: the object
header parsed at offset 0, and the packed tags parsed at any byte
offset. -/
structure DetectInput where
  oh : ObjectHeader
  tagAt : Nat → TagsPart

/-- The first-header validation of detect_chunk_size lines 537-543:
parentObjectId must be the root id and the type one of FILE, DIRECTORY,
SYMLINK, HARDLINK, SPECIAL. -/
def headerOk (oh : ObjectHeader) : Bool :=
  oh.parentObjectId == YAFFS_OBJECTID_ROOT &&
  (oh.type == TYPE_FILE || oh.type == TYPE_DIRECTORY || oh.type == TYPE_SYMLINK ||
   oh.type == TYPE_HARDLINK || oh.type == TYPE_SPECIAL)

/-- The per-candidate test of detect_chunk_size lines 552-554: `tag1` at
offset `chunk` must look like a header tag, and `tag2` at offset
`2*chunk + spare` must be a header tag or the first data chunk of the
same object as `tag1`. -/
def layoutMatches (tagAt : Nat → TagsPart) (cs ss : Nat) : Bool :=
  let pt := tagAt cs
  let pt2 := tagAt (2 * cs + ss)
  (pt.byteCount == 0xffff && pt.chunkId == 0) &&
  ((pt2.byteCount == 0xffff && pt2.chunkId == 0) ||
   (pt2.objectId == pt.objectId && pt2.chunkId == 1))

/-- Outcome of layout detection. -/
inductive DetectResult where
  | notYaffs2
  | undetectable
  | layout (cs ss : Nat)
deriving DecidableEq

/-- detect_chunk_size from unyaffs.c: reject non-yaffs2 first headers,
then scan the candidates in ascending chunk size and keep the first
match ("Can't determine chunk size" when none matches). -/
def detect_chunk_size (inp : DetectInput) : DetectResult :=
  if !headerOk inp.oh then .notYaffs2
  else
    match possible_layouts.find? (fun p => layoutMatches inp.tagAt p.1 p.2) with
    | some p => .layout p.1 p.2
    | none => .undetectable

/-- Fold plain table insertions (the last two lines of add_object) over a
list of objects, oldest first. -/
def insertAll (t : HTable) : List Obj → HTable
  | [] => t
  | o :: os => insertAll (t.insert o) os

/-- The type-range check of add_object lines 244-249. -/
def typeValid (ty : Nat) : Prop :=
  ty = TYPE_UNKNOWN ∨ ty = TYPE_FILE ∨ ty = TYPE_SYMLINK ∨ ty = TYPE_DIRECTORY ∨
  ty = TYPE_HARDLINK ∨ ty = TYPE_SPECIAL

instance (ty : Nat) : Decidable (typeValid ty) := by
  unfold typeValid; infer_instance

/-- The name check of add_object lines 252-253: nonempty, no '/',
not "." and not "..". -/
def nameValid (n : List Char) : Prop :=
  n ≠ [] ∧ '/' ∉ n ∧ n ≠ ['.'] ∧ n ≠ ['.', '.']

instance (n : List Char) : Decidable (nameValid n) := by
  unfold nameValid; infer_instance

/-- Whether an Except is a success. -/
def isOkE {α : Type} : Except Err α → Bool
  | .ok _ => true
  | .error _ => false

theorem get_insert_self (t : HTable) (o : Obj) :
    get_object (t.insert o) o.id = some o := by
  simp [get_object, HTable.insert, List.find?]

theorem get_insert_ne (t : HTable) (o : Obj) (id : Nat) (h : id ≠ o.id) :
    get_object (t.insert o) id = get_object t id := by
  unfold get_object HTable.insert
  dsimp only
  by_cases hb : id % HASH_SIZE = o.id % HASH_SIZE
  · have h1 : ((o.id : Nat) == id) = false := by simp [Ne.symm h]
    simp [hb, List.find?_cons, h1]
  · rw [if_neg hb]

theorem find?_updTimes_ne (tgt a m id : Nat) (l : List Obj) (h : id ≠ tgt) :
    (updTimes tgt a m l).find? (fun o => o.id == id) = l.find? (fun o => o.id == id) := by
  induction l with
  | nil => rfl
  | cons o os ih =>
    by_cases ho : o.id = tgt
    · have h1 : ((tgt : Nat) == id) = false := by simp [Ne.symm h]
      simp [updTimes, ho, List.find?_cons, h1]
    · have hcond : ¬ ((o.id : Nat) == tgt) = true := by simp [ho]
      simp only [updTimes]
      rw [if_neg hcond, List.find?_cons, List.find?_cons]
      cases hc : ((o.id : Nat) == id) <;> simp [hc, ih]

theorem get_setTimes_ne (t : HTable) (tgt a m id : Nat) (h : id ≠ tgt) :
    get_object (t.setTimes tgt a m) id = get_object t id := by
  unfold get_object HTable.setTimes
  dsimp only
  by_cases hb : id % HASH_SIZE = tgt % HASH_SIZE
  · rw [if_pos hb, hb, find?_updTimes_ne _ _ _ _ _ h]
  · rw [if_neg hb]

theorem find?_updTimes_self (tgt a m : Nat) (l : List Obj) :
    (updTimes tgt a m l).find? (fun o => o.id == tgt) =
      (l.find? (fun o => o.id == tgt)).map (fun o => { o with atime := a, mtime := m }) := by
  induction l with
  | nil => rfl
  | cons o os ih =>
    by_cases ho : o.id = tgt
    · simp [updTimes, ho, List.find?_cons]
    · simp [updTimes, ho, List.find?_cons, ih]

theorem get_setTimes_self (t : HTable) (tgt a m : Nat) :
    get_object (t.setTimes tgt a m) tgt =
      (get_object t tgt).map (fun o => { o with atime := a, mtime := m }) := by
  unfold get_object HTable.setTimes
  dsimp only
  rw [if_pos rfl, find?_updTimes_self]

theorem get_object_id (t : HTable) (id : Nat) (o : Obj) (h : get_object t id = some o) :
    o.id = id := by
  have := List.find?_some h
  simpa using this

theorem get_object_mem (t : HTable) (id : Nat) (o : Obj) (h : get_object t id = some o) :
    o ∈ t.buckets (id % HASH_SIZE) :=
  List.mem_of_find?_eq_some h

theorem insertAll_get_of_not_mem (t : HTable) (es : List Obj) (id : Nat)
    (h : id ∉ es.map (fun o => o.id)) :
    get_object (insertAll t es) id = get_object t id := by
  induction es generalizing t with
  | nil => rfl
  | cons e es ih =>
    simp only [List.map_cons, List.mem_cons, not_or] at h
    rw [insertAll, ih _ h.2, get_insert_ne _ _ _ h.1]

theorem insertAll_get_mem (es : List Obj) (hnd : (es.map (fun o => o.id)).Nodup) :
    ∀ t, ∀ o ∈ es, get_object (insertAll t es) o.id = some o := by
  induction es with
  | nil => intro t o ho; cases ho
  | cons e es ih =>
    intro t o ho
    simp only [List.map_cons, List.nodup_cons] at hnd
    rcases List.mem_cons.mp ho with rfl | ho
    · rw [insertAll, insertAll_get_of_not_mem _ _ _ hnd.1, get_insert_self]
    · exact ih hnd.2 (t.insert e) o ho

/-- Claim C10: object-table lookup is correct under hash collisions:
after inserting entries with pairwise distinct ids into the empty table,
`get_object` returns exactly the entry inserted with the queried id, and
`none` for ids never inserted, even when distinct ids share a bucket
modulo HASH_SIZE = 7001. -/
theorem c10_object_table_lookup (es : List Obj)
    (hnd : (es.map (fun o => o.id)).Nodup) :
    (∀ o ∈ es, get_object (insertAll HTable.empty es) o.id = some o) ∧
    (∀ id, id ∉ es.map (fun o => o.id) →
       get_object (insertAll HTable.empty es) id = none) := by
  refine ⟨insertAll_get_mem es hnd HTable.empty, fun id hid => ?_⟩
  rw [insertAll_get_of_not_mem _ _ _ hid]
  rfl

/-- Witness for C10 at a concrete colliding pair: ids 1 and 7002 share
bucket 1 (7002 % 7001 = 1); lookups still separate them, and an id absent
from the table (14003, also bucket 1) yields none. -/
theorem c10_object_table_lookup_witness :
    (7002 % HASH_SIZE = 1 % HASH_SIZE) ∧
    get_object (insertAll HTable.empty
      [(⟨1, 1, 0, 0, 0, ['a']⟩ : Obj), (⟨7002, 1, 0, 0, 0, ['b']⟩ : Obj)]) 7002 =
      some (⟨7002, 1, 0, 0, 0, ['b']⟩ : Obj) ∧
    get_object (insertAll HTable.empty
      [(⟨1, 1, 0, 0, 0, ['a']⟩ : Obj), (⟨7002, 1, 0, 0, 0, ['b']⟩ : Obj)]) 1 =
      some (⟨1, 1, 0, 0, 0, ['a']⟩ : Obj) ∧
    get_object (insertAll HTable.empty
      [(⟨1, 1, 0, 0, 0, ['a']⟩ : Obj), (⟨7002, 1, 0, 0, 0, ['b']⟩ : Obj)]) 14003 = none := by
  have h := c10_object_table_lookup
    [(⟨1, 1, 0, 0, 0, ['a']⟩ : Obj), (⟨7002, 1, 0, 0, 0, ['b']⟩ : Obj)] (by decide)
  refine ⟨by decide, ?_, ?_, ?_⟩
  · exact h.1 (⟨7002, 1, 0, 0, 0, ['b']⟩ : Obj) (by simp)
  · exact h.1 (⟨1, 1, 0, 0, 0, ['a']⟩ : Obj) (by simp)
  · exact h.2 14003 (by decide)

/-- Counterexample to Claim C2 as stated: (1) a chunk whose tag has
byteCount 0xffff but chunkId 1 is still treated as a header record, so
"header exactly when byteCount == 0xFFFF AND chunkId == 0" is false —
process_chunk never examines chunkId; (2) a data chunk (chunkId 1,
byteCount 100) arriving outside any file context is counted as a
malformed header against warn_count, not silently skipped. -/
theorem c2_chunk_classification_counterexample :
    (classifyTag ⟨0, 2, 1, 0xffff⟩ = ChunkKind.header ∧
     (⟨0, 2, 1, 0xffff⟩ : TagsPart).chunkId ≠ 0) ∧
    ((runImage false 1 init_obj_list
        [⟨⟨0, 0, [], 0, 0, 0, 0, 0, 0, 0, [], 0⟩, ⟨0, 2, 1, 100⟩, []⟩]).toOption.map
        (fun r => r.1.warn) = some 1) := by
  refine ⟨⟨rfl, by decide⟩, rfl⟩

/-- Claim C2 (amended): process_chunk classifies a chunk by its tag's
byteCount alone: it is a header record exactly when byteCount == 0xFFFF
(chunkId is not examined); byteCount == 0xFFFFFFFF is skipped silently;
any other byteCount — including a data chunk outside a file context — is
warned about as an invalid header and counted against warn_count, without
aborting while the warning budget is not reached. -/
theorem c2_chunk_classification_amended :
    (∀ t : TagsPart,
      (classifyTag t = ChunkKind.header ↔ t.byteCount = 0xffff) ∧
      (classifyTag t = ChunkKind.empty ↔ t.byteCount = 0xffffffff) ∧
      (classifyTag t = ChunkKind.malformed ↔
        (t.byteCount ≠ 0xffff ∧ t.byteCount ≠ 0xffffffff))) ∧
    (∀ (st : State) (c : Chunk), classifyTag c.tag = ChunkKind.malformed →
      st.warn + 1 < MAX_WARN →
      runImage false 1 st [c] =
        .ok ({ st with warn := st.warn + 1 }, [Event.warnInvalid], [])) ∧
    (∀ (st : State) (c : Chunk), classifyTag c.tag = ChunkKind.empty →
      runImage false 1 st [c] = .ok (st, [], [])) := by
  refine ⟨fun t => ?_, fun st c hm hw => ?_, fun st c he => ?_⟩
  · unfold classifyTag
    by_cases h1 : t.byteCount = 0xffffffff
    · simp [h1]
    · by_cases h2 : t.byteCount = 0xffff
      · simp [h1, h2]
      · simp [h1, h2]
  · simp only [runImage, hm]
    rw [if_neg (by omega)]
  · simp only [runImage, he]

/-- Witness for the amended C2 at concrete tags: byteCount 0xffff with a
nonzero chunkId is a header, 0xffffffff is empty, byteCount 100 is
malformed and processing it bumps warn_count by one without failing. -/
theorem c2_chunk_classification_amended_witness :
    classifyTag ⟨7, 9, 5, 0xffff⟩ = ChunkKind.header ∧
    classifyTag ⟨7, 9, 5, 0xffffffff⟩ = ChunkKind.empty ∧
    classifyTag ⟨7, 9, 5, 100⟩ = ChunkKind.malformed ∧
    runImage false 1 init_obj_list
        [⟨⟨0, 0, [], 0, 0, 0, 0, 0, 0, 0, [], 0⟩, ⟨7, 9, 5, 100⟩, []⟩] =
      .ok ({ init_obj_list with warn := 1 }, [Event.warnInvalid], []) := by
  have h := c2_chunk_classification_amended
  refine ⟨(h.1 ⟨7, 9, 5, 0xffff⟩).1.mpr (by decide),
          (h.1 ⟨7, 9, 5, 0xffffffff⟩).2.1.mpr (by decide),
          (h.1 ⟨7, 9, 5, 100⟩).2.2.mpr (by decide), ?_⟩
  exact h.2.1 init_obj_list ⟨⟨0, 0, [], 0, 0, 0, 0, 0, 0, 0, [], 0⟩, ⟨7, 9, 5, 100⟩, []⟩
    (by decide) (by decide)

/-- Counterexample to Claim C6 as stated: a header record whose type
field (6) is out of the enum range is processed fatally — the run aborts
with the "Illegal type" exit(1), rather than warning and continuing. -/
theorem c6_illegal_type_counterexample :
    runImage false 1 init_obj_list
        [⟨⟨6, 1, ['x'], 0, 0, 0, 0, 0, 0, 0, [], 0⟩, ⟨0, 2, 0, 0xffff⟩, []⟩] =
      .error Err.illegalType := rfl

/-- Claim C6 (amended): a non-root header record whose type field is out
of the enum range {0..5} is fatal: add_object exits with status 1
("Illegal type ..."), without touching warn_count — it is not a
non-fatal Malformed warning. -/
theorem c6_illegal_type_fatal_amended (st : State) (oh : ObjectHeader) (pt : TagsPart)
    (hroot : pt.objectId ≠ YAFFS_OBJECTID_ROOT) (hty : ¬ typeValid oh.type) :
    add_object st oh pt = .error .illegalType := by
  unfold typeValid TYPE_UNKNOWN TYPE_FILE TYPE_SYMLINK TYPE_DIRECTORY TYPE_HARDLINK
    TYPE_SPECIAL at hty
  push_neg at hty
  simp [add_object, hroot, TYPE_FILE, TYPE_DIRECTORY, TYPE_SYMLINK, TYPE_HARDLINK,
    TYPE_SPECIAL, TYPE_UNKNOWN, hty.1, hty.2.1, hty.2.2.1, hty.2.2.2.1,
    hty.2.2.2.2.1, hty.2.2.2.2.2]

/-- Witness for the amended C6: a header with type 6 for object 2 is
rejected as an illegal type. -/
theorem c6_illegal_type_fatal_amended_witness :
    add_object init_obj_list ⟨6, 1, ['x'], 0, 0, 0, 0, 0, 0, 0, [], 0⟩ ⟨0, 2, 0, 0xffff⟩ =
      .error .illegalType :=
  c6_illegal_type_fatal_amended init_obj_list _ _ (by decide) (by decide)

theorem runImage_malformed_repeat (c : Chunk) (hm : classifyTag c.tag = ChunkKind.malformed) :
    ∀ (n : Nat) (st : State) (fuel : Nat), n ≤ fuel →
      runImage false fuel st (List.replicate n c) =
        if n = 0 then .ok (st, [], [])
        else if st.warn + n ≥ MAX_WARN then .error .givingUp
        else .ok ({ st with warn := st.warn + n }, List.replicate n Event.warnInvalid, []) := by
  intro n
  induction n with
  | zero =>
    intro st fuel hf
    simp [runImage]
  | succ n ih =>
    intro st fuel hf
    cases fuel with
    | zero => omega
    | succ f =>
      obtain ⟨tab, last, w⟩ := st
      rw [List.replicate_succ]
      simp only [runImage, hm]
      by_cases hb : w + 1 ≥ MAX_WARN
      · rw [if_pos (by simpa using hb), if_neg (by omega), if_pos (by simp; omega)]
      · rw [if_neg (by simpa using hb),
            ih ⟨tab, last, w + 1⟩ f (by omega)]
        by_cases hn : n = 0
        · subst hn
          rw [if_pos rfl, if_neg (by omega), if_neg (by simp; omega)]
          rfl
        · rw [if_neg hn]
          by_cases h2 : w + 1 + n ≥ MAX_WARN
          · rw [if_pos (by simpa using h2), if_neg (by omega), if_pos (by simp; omega)]
          · rw [if_neg (by simpa using h2), if_neg (by omega), if_neg (by simp; omega)]
            have he : w + 1 + n = w + (n + 1) := by omega
            simp only [he, List.replicate_succ]

/-- Claim C7: each malformed record increments warn_count, and the
program aborts fatally ("Giving up", exit 1) exactly when warn_count
reaches MAX_WARN = 20: a run over fewer than 20 consecutive malformed
chunks completes with warn_count equal to their number, while a run over
20 or more aborts — so with 21 consecutive malformed chunks it exits
while processing the 20th. -/
theorem c7_warn_budget (c : Chunk) (hm : classifyTag c.tag = ChunkKind.malformed) :
    (∀ n : Nat, n < MAX_WARN →
      runImage false (n + 1) init_obj_list (List.replicate n c) =
        .ok ({ init_obj_list with warn := n }, List.replicate n Event.warnInvalid, [])) ∧
    (∀ n : Nat, MAX_WARN ≤ n →
      runImage false (n + 1) init_obj_list (List.replicate n c) = .error .givingUp) := by
  constructor
  · intro n hn
    rw [runImage_malformed_repeat c hm n init_obj_list (n + 1) (by omega)]
    by_cases h0 : n = 0
    · subst h0; rfl
    · rw [if_neg h0, if_neg (by simp [init_obj_list]; omega)]
      simp [init_obj_list]
  · intro n hn
    have hn' : 20 ≤ n := hn
    rw [runImage_malformed_repeat c hm n init_obj_list (n + 1) (by omega)]
    rw [if_neg (by omega), if_pos (by simp [init_obj_list, MAX_WARN]; omega)]

/-- Witness for C7: with the concrete malformed chunk (byteCount 1),
19 of them are survived with warn_count 19, 20 of them abort with
"Giving up" (so 21 would never reach the 21st). -/
theorem c7_warn_budget_witness :
    runImage false 20 init_obj_list
        (List.replicate 19 ⟨⟨0, 0, [], 0, 0, 0, 0, 0, 0, 0, [], 0⟩, ⟨0, 3, 1, 1⟩, []⟩) =
      .ok ({ init_obj_list with warn := 19 }, List.replicate 19 Event.warnInvalid, []) ∧
    runImage false 21 init_obj_list
        (List.replicate 20 ⟨⟨0, 0, [], 0, 0, 0, 0, 0, 0, 0, [], 0⟩, ⟨0, 3, 1, 1⟩, []⟩) =
      .error .givingUp := by
  have h := c7_warn_budget ⟨⟨0, 0, [], 0, 0, 0, 0, 0, 0, 0, [], 0⟩, ⟨0, 3, 1, 1⟩, []⟩ (by decide)
  exact ⟨h.1 19 (by decide), h.2 20 (by decide)⟩

theorem flatten_take_eq_nil (l : List Chunk)
    (h : (l.map (fun c => c.tag.byteCount)).sum = 0) :
    (l.map (fun c => c.payload.take c.tag.byteCount)).flatten = [] := by
  induction l with
  | nil => rfl
  | cons c t ih =>
    simp only [List.map_cons, List.sum_cons] at h
    have hc : c.tag.byteCount = 0 := by omega
    have ht := ih (by omega)
    simp [hc, ht]

theorem flatten_take_length (l : List Chunk)
    (hcap : ∀ c ∈ l, c.tag.byteCount ≤ c.payload.length) :
    ((l.map (fun c => c.payload.take c.tag.byteCount)).flatten).length =
      (l.map (fun c => c.tag.byteCount)).sum := by
  induction l with
  | nil => rfl
  | cons c t ih =>
    have hc := hcap c (List.mem_cons_self c t)
    have ht := ih (fun x hx => hcap x (List.mem_cons_of_mem _ hx))
    simp [List.length_take, ht, Nat.min_eq_left hc]

theorem consumeData_exact (l : List Chunk) :
    ∀ S : Nat, (l.map (fun c => c.tag.byteCount)).sum = S →
      (∀ c ∈ l, c.tag.byteCount ≤ c.payload.length) →
      ∃ rest, consumeData (S : Int) l =
        some ((l.map (fun c => c.payload.take c.tag.byteCount)).flatten, rest) := by
  induction l with
  | nil =>
    intro S hS _
    simp only [List.map_nil, List.sum_nil] at hS
    subst hS
    exact ⟨[], by rw [consumeData]; simp⟩
  | cons c t ih =>
    intro S hS hcap
    simp only [List.map_cons, List.sum_cons] at hS
    by_cases h0 : S = 0
    · subst h0
      refine ⟨c :: t, ?_⟩
      rw [consumeData, if_pos (by norm_num)]
      rw [flatten_take_eq_nil (c :: t) (by simp only [List.map_cons, List.sum_cons]; omega)]
    · have hpos : (0 : Int) < ((S : Nat) : Int) := by
        exact_mod_cast Nat.pos_of_ne_zero h0
      obtain ⟨rest, hrest⟩ :=
        ih (t.map (fun c => c.tag.byteCount)).sum rfl
          (fun x hx => hcap x (List.mem_cons_of_mem _ hx))
      refine ⟨rest, ?_⟩
      simp only [consumeData]
      rw [if_neg (not_le.mpr hpos)]
      have hbc : c.tag.byteCount ≤ S := by omega
      have hmin : min ((S : Nat) : Int) ((c.tag.byteCount : Nat) : Int) =
          ((c.tag.byteCount : Nat) : Int) := min_eq_right (by exact_mod_cast hbc)
      have hsub : ((S : Nat) : Int) - ((c.tag.byteCount : Nat) : Int) =
          (((t.map (fun c => c.tag.byteCount)).sum : Nat) : Int) := by
        omega
      rw [hmin, hsub, hrest]
      simp

theorem consumeData_short (l : List Chunk) :
    ∀ S : Nat, (l.map (fun c => c.tag.byteCount)).sum < S →
      consumeData (S : Int) l = none := by
  induction l with
  | nil =>
    intro S h
    simp only [List.map_nil, List.sum_nil] at h
    have hpos : (0 : Int) < ((S : Nat) : Int) := by exact_mod_cast h
    rw [consumeData, if_neg (not_le.mpr hpos)]
  | cons c t ih =>
    intro S h
    simp only [List.map_cons, List.sum_cons] at h
    have hpos : (0 : Int) < ((S : Nat) : Int) := by
      exact_mod_cast (by omega : 0 < S)
    simp only [consumeData]
    rw [if_neg (not_le.mpr hpos)]
    have hbc : c.tag.byteCount ≤ S := by omega
    have hmin : min ((S : Nat) : Int) ((c.tag.byteCount : Nat) : Int) =
        ((c.tag.byteCount : Nat) : Int) := min_eq_right (by exact_mod_cast hbc)
    have hsub : ((S : Nat) : Int) - ((c.tag.byteCount : Nat) : Int) =
        (((S - c.tag.byteCount : Nat) : Nat) : Int) := by
      omega
    rw [hmin, hsub, ih (S - c.tag.byteCount) (by omega)]

/-- Claim C1: for a FILE whose header declares fileSize S and whose
following data records have cumulative byteCount exactly S, the extract
loop writes exactly S bytes, namely the concatenation of the records'
payload prefixes (each record's write being capped at the remaining byte
count, `s = min remain byteCount`); and when the reader reports absent
(stream exhausted) before S bytes have been consumed, the loop fails
fatally with "Broken image file" (consumeData returns none, which
materialize turns into the fatal brokenImage exit). -/
theorem c1_file_content :
    (∀ (l : List Chunk) (S : Nat),
      (l.map (fun c => c.tag.byteCount)).sum = S →
      (∀ c ∈ l, c.tag.byteCount ≤ c.payload.length) →
      (∃ rest, consumeData (S : Int) l =
         some ((l.map (fun c => c.payload.take c.tag.byteCount)).flatten, rest)) ∧
      ((l.map (fun c => c.payload.take c.tag.byteCount)).flatten).length = S) ∧
    (∀ (l : List Chunk) (S : Nat),
      (l.map (fun c => c.tag.byteCount)).sum < S →
      consumeData (S : Int) l = none) := by
  constructor
  · intro l S hsum hcap
    exact ⟨consumeData_exact l S hsum hcap, by rw [flatten_take_length l hcap, hsum]⟩
  · intro l S h
    exact consumeData_short l S h

/-- Witness for C1 on a concrete two-record stream (byteCounts 2 and 1,
payload prefixes [1,2] and [4]): with declared size 3 the loop writes
exactly [1,2,4] (3 bytes); with declared size 4 the stream is exhausted
early and the loop fails. -/
theorem c1_file_content_witness :
    ((([⟨⟨0, 0, [], 0, 0, 0, 0, 0, 0, 0, [], 0⟩, ⟨0, 2, 1, 2⟩, [1, 2, 3]⟩,
        ⟨⟨0, 0, [], 0, 0, 0, 0, 0, 0, 0, [], 0⟩, ⟨0, 2, 2, 1⟩, [4, 5]⟩] :
        List Chunk).map (fun c => c.payload.take c.tag.byteCount)).flatten).length = 3 ∧
    consumeData 3
      [⟨⟨0, 0, [], 0, 0, 0, 0, 0, 0, 0, [], 0⟩, ⟨0, 2, 1, 2⟩, [1, 2, 3]⟩,
       ⟨⟨0, 0, [], 0, 0, 0, 0, 0, 0, 0, [], 0⟩, ⟨0, 2, 2, 1⟩, [4, 5]⟩] =
      some ([1, 2, 4], []) ∧
    consumeData 4
      [⟨⟨0, 0, [], 0, 0, 0, 0, 0, 0, 0, [], 0⟩, ⟨0, 2, 1, 2⟩, [1, 2, 3]⟩,
       ⟨⟨0, 0, [], 0, 0, 0, 0, 0, 0, 0, [], 0⟩, ⟨0, 2, 2, 1⟩, [4, 5]⟩] = none := by
  refine ⟨(c1_file_content.1 _ 3 (by decide) (by decide)).2, by rfl,
          c1_file_content.2 _ 4 (by decide)⟩

/-- Counterexample to Claim C5 as stated: the program does not require
the hardlink target to be a non-directory.  With object 2 materialized
as a DIRECTORY, a HARDLINK header with equivalentObjectId 2 passes the
table check (hardlinkCheck succeeds) and proceeds to emit the link
syscall instead of failing with an InvalidReference error — the claimed
"must be a non-directory object" condition is never enforced by the
extractor itself. -/
theorem c5_invalid_reference_counterexample :
    hardlinkCheck ((HTable.empty.insert rootObject).insert ⟨2, 3, 0, 0, 0, ['d']⟩)
        ⟨4, 1, ['h'], 0, 0, 0, 0, 0, 0, 2, [], 0⟩ =
      .ok ⟨2, 3, 0, 0, 0, ['d']⟩ ∧
    (⟨2, 3, 0, 0, 0, ['d']⟩ : Obj).type = TYPE_DIRECTORY ∧
    materialize ⟨(HTable.empty.insert rootObject).insert ⟨2, 3, 0, 0, 0, ['d']⟩, 2, 0⟩
        ⟨4, 1, ['h'], 0, 0, 0, 0, 0, 0, 2, [], 0⟩ ⟨0, 3, 0, 0xffff⟩
        ⟨3, 4, 0, 0, 0, ['h']⟩ [] =
      .ok ([Event.linkE ['d'] ['h']], []) :=
  ⟨rfl, rfl, rfl⟩

/-- Claim C5 (amended): each InvalidReference condition checked by the
program is fatal (exit status 1): a non-root header with a duplicate
object id, a missing parent, a non-directory parent, or an illegal name
(empty, ".", "..", or containing '/'); and a HARDLINK header whose
equivalentObjectId is not materialized in the object table at processing
time.  (The program does not itself check that the hardlink target is a
non-directory; a directory target passes the table check and is left to
the external link() call.) -/
theorem c5_invalid_reference_fatal_amended :
    (∀ (st : State) (oh : ObjectHeader) (pt : TagsPart),
      pt.objectId ≠ YAFFS_OBJECTID_ROOT → typeValid oh.type → nameValid oh.name →
      (get_object st.tab pt.objectId).isSome = true →
      add_object st oh pt = .error .duplicateId) ∧
    (∀ (st : State) (oh : ObjectHeader) (pt : TagsPart),
      pt.objectId ≠ YAFFS_OBJECTID_ROOT → typeValid oh.type → nameValid oh.name →
      get_object st.tab pt.objectId = none →
      get_object st.tab oh.parentObjectId = none →
      add_object st oh pt = .error .invalidParent) ∧
    (∀ (st : State) (oh : ObjectHeader) (pt : TagsPart) (parent : Obj),
      pt.objectId ≠ YAFFS_OBJECTID_ROOT → typeValid oh.type → nameValid oh.name →
      get_object st.tab pt.objectId = none →
      get_object st.tab oh.parentObjectId = some parent →
      parent.type ≠ TYPE_DIRECTORY →
      add_object st oh pt = .error .parentNotDirectory) ∧
    (∀ (st : State) (oh : ObjectHeader) (pt : TagsPart),
      pt.objectId ≠ YAFFS_OBJECTID_ROOT → typeValid oh.type → ¬ nameValid oh.name →
      add_object st oh pt = .error .illegalName) ∧
    (∀ (t : HTable) (oh : ObjectHeader),
      get_object t oh.equivalentObjectId = none →
      hardlinkCheck t oh = .error .invalidEquivalentObjectId) := by
  have hty' : ∀ oh : ObjectHeader, typeValid oh.type →
      ¬(oh.type ≠ TYPE_FILE ∧ oh.type ≠ TYPE_DIRECTORY ∧ oh.type ≠ TYPE_SYMLINK ∧
        oh.type ≠ TYPE_HARDLINK ∧ oh.type ≠ TYPE_SPECIAL ∧ oh.type ≠ TYPE_UNKNOWN) := by
    intro oh hty
    unfold typeValid at hty
    tauto
  have hnm' : ∀ oh : ObjectHeader, nameValid oh.name →
      ¬(oh.name = [] ∨ '/' ∈ oh.name ∨ oh.name = ['.'] ∨ oh.name = ['.', '.']) := by
    intro oh hn
    unfold nameValid at hn
    tauto
  refine ⟨?_, ?_, ?_, ?_, ?_⟩
  · intro st oh pt hroot hty hname hdup
    simp only [add_object]
    rw [if_neg hroot, if_neg (hty' oh hty), if_neg (hnm' oh hname), if_pos hdup]
  · intro st oh pt hroot hty hname hdup hpar
    simp only [add_object]
    rw [if_neg hroot, if_neg (hty' oh hty), if_neg (hnm' oh hname),
        if_neg (by simp [hdup]), hpar]
  · intro st oh pt parent hroot hty hname hdup hpar hpt
    simp only [add_object]
    rw [if_neg hroot, if_neg (hty' oh hty), if_neg (hnm' oh hname),
        if_neg (by simp [hdup]), hpar]
    simp [hpt]
  · intro st oh pt hroot hty hname
    simp only [add_object]
    rw [if_neg hroot, if_neg (hty' oh hty), if_pos (by unfold nameValid at hname; tauto)]
  · intro t oh h
    simp [hardlinkCheck, h]

/-- Witness for the amended C5 at concrete inputs: duplicate id 2,
parent 5 missing, parent 2 a FILE, name ".", and a hardlink to the
absent id 9 are each fatal. -/
theorem c5_invalid_reference_fatal_amended_witness :
    add_object ⟨(HTable.empty.insert rootObject).insert ⟨2, 1, 0, 0, 0, ['f']⟩, 0, 0⟩
        ⟨1, 1, ['g'], 0, 0, 0, 0, 0, 0, 0, [], 0⟩ ⟨0, 2, 0, 0xffff⟩ =
      .error .duplicateId ∧
    add_object init_obj_list ⟨1, 5, ['g'], 0, 0, 0, 0, 0, 0, 0, [], 0⟩ ⟨0, 2, 0, 0xffff⟩ =
      .error .invalidParent ∧
    add_object ⟨(HTable.empty.insert rootObject).insert ⟨2, 1, 0, 0, 0, ['f']⟩, 0, 0⟩
        ⟨1, 2, ['g'], 0, 0, 0, 0, 0, 0, 0, [], 0⟩ ⟨0, 3, 0, 0xffff⟩ =
      .error .parentNotDirectory ∧
    add_object init_obj_list ⟨1, 1, ['.'], 0, 0, 0, 0, 0, 0, 0, [], 0⟩ ⟨0, 2, 0, 0xffff⟩ =
      .error .illegalName ∧
    hardlinkCheck init_obj_list.tab ⟨4, 1, ['h'], 0, 0, 0, 0, 0, 0, 9, [], 0⟩ =
      .error .invalidEquivalentObjectId := by
  have h := c5_invalid_reference_fatal_amended
  refine ⟨h.1 _ _ _ (by decide) (by decide) (by decide) (by rfl),
          h.2.1 _ _ _ (by decide) (by decide) (by decide) (by rfl) (by rfl),
          h.2.2.1 _ _ _ ⟨2, 1, 0, 0, 0, ['f']⟩ (by decide) (by decide) (by decide)
            (by rfl) (by rfl) (by decide),
          h.2.2.2.1 _ _ _ (by decide) (by decide) (by decide),
          h.2.2.2.2 _ _ (by rfl)⟩


/-- Every object in the table has a nonempty path with no leading slash,
and id-1 entries keep the root path ".". -/
def pathsOk (t : HTable) : Prop :=
  ∀ i : Nat, ∀ o ∈ t.buckets i,
    o.path_name ≠ [] ∧ o.path_name.head? ≠ some '/' ∧
    (o.id = YAFFS_OBJECTID_ROOT → o.path_name = ['.'])

theorem mem_insert_bucket (t : HTable) (o : Obj) (i : Nat) (x : Obj)
    (hx : x ∈ (t.insert o).buckets i) : x = o ∨ x ∈ t.buckets i := by
  unfold HTable.insert at hx
  dsimp only at hx
  by_cases hb : i = o.id % HASH_SIZE
  · rw [if_pos hb] at hx
    exact List.mem_cons.mp hx
  · rw [if_neg hb] at hx
    exact Or.inr hx

theorem mem_updTimes (id a m : Nat) (l : List Obj) (x : Obj)
    (hx : x ∈ updTimes id a m l) :
    ∃ y ∈ l, x.path_name = y.path_name ∧ x.id = y.id ∧ x.type = y.type ∧
      x.prev_dir_id = y.prev_dir_id := by
  induction l with
  | nil => cases hx
  | cons o os ih =>
    unfold updTimes at hx
    by_cases ho : (o.id == id) = true
    · rw [if_pos ho] at hx
      rcases List.mem_cons.mp hx with rfl | hmem
      · exact ⟨o, List.mem_cons_self o os, rfl, rfl, rfl, rfl⟩
      · exact ⟨x, List.mem_cons_of_mem _ hmem, rfl, rfl, rfl, rfl⟩
    · rw [if_neg ho] at hx
      rcases List.mem_cons.mp hx with rfl | hmem
      · exact ⟨x, List.mem_cons_self x os, rfl, rfl, rfl, rfl⟩
      · obtain ⟨y, hy, h1, h2, h3, h4⟩ := ih hmem
        exact ⟨y, List.mem_cons_of_mem _ hy, h1, h2, h3, h4⟩

theorem setTimes_pathsOk (t : HTable) (id a m : Nat) (hp : pathsOk t) :
    pathsOk (t.setTimes id a m) := by
  intro i x hx
  unfold HTable.setTimes at hx
  dsimp only at hx
  by_cases hb : i = id % HASH_SIZE
  · rw [if_pos hb] at hx
    obtain ⟨y, hy, h1, h2, _, _⟩ := mem_updTimes _ _ _ _ _ hx
    rw [h1, h2]
    exact hp i y hy
  · rw [if_neg hb] at hx
    exact hp i x hx

theorem newpath_ok (name ppath : List Char) (hn : name ≠ []) (hslash : '/' ∉ name)
    (hpne : ppath ≠ []) (hphead : ppath.head? ≠ some '/') :
    (if ppath = ['.'] then name else ppath ++ '/' :: name) ≠ [] ∧
    (if ppath = ['.'] then name else ppath ++ '/' :: name).head? ≠ some '/' := by
  by_cases hdot : ppath = ['.']
  · rw [if_pos hdot]
    refine ⟨hn, ?_⟩
    cases name with
    | nil => exact absurd rfl hn
    | cons c cs =>
      simp only [List.head?_cons]
      intro hc
      apply hslash
      simp only [Option.some.injEq] at hc
      rw [hc]
      exact List.mem_cons_self _ _
  · rw [if_neg hdot]
    cases ppath with
    | nil => exact absurd rfl hpne
    | cons p ps =>
      refine ⟨by simp, ?_⟩
      simp only [List.cons_append, List.head?_cons]
      simpa using hphead

theorem add_object_pathsOk (st : State) (oh : ObjectHeader) (pt : TagsPart)
    (st' : State) (obj : Obj) (h : add_object st oh pt = .ok (st', obj))
    (hp : pathsOk st.tab) : pathsOk st'.tab := by
  simp only [add_object] at h
  by_cases hroot : pt.objectId = YAFFS_OBJECTID_ROOT
  · rw [if_pos hroot] at h
    split at h
    · simp at h
    · split at h
      · simp at h
      · simp only [Except.ok.injEq, Prod.mk.injEq] at h
        obtain ⟨h1, _⟩ := h
        rw [← h1]
        exact setTimes_pathsOk _ _ _ _ hp
  · rw [if_neg hroot] at h
    split at h
    · simp at h
    · split at h
      · simp at h
      · split at h
        · simp at h
        · split at h
          · simp at h
          · rename_i hnchk _ _ parent hpar
            split at h
            · simp at h
            · simp only [Except.ok.injEq, Prod.mk.injEq] at h
              obtain ⟨h1, _⟩ := h
              rw [← h1]
              push_neg at hnchk
              obtain ⟨hn1, hn2, _, _⟩ := hnchk
              have hpp := hp (oh.parentObjectId % HASH_SIZE) parent
                (get_object_mem _ _ _ hpar)
              intro i x hx
              rcases mem_insert_bucket _ _ _ _ hx with rfl | hmem
              · dsimp only
                have := newpath_ok oh.name parent.path_name hn1 hn2 hpp.1 hpp.2.1
                exact ⟨this.1, this.2, fun hc => absurd hc hroot⟩
              · exact hp i x hmem

theorem pathsOk_init : pathsOk init_obj_list.tab := by
  intro i x hx
  rcases mem_insert_bucket _ _ _ _ hx with rfl | hmem
  · refine ⟨by decide, by decide, fun _ => rfl⟩
  · simp [HTable.empty] at hmem

theorem runHeaders_pathsOk (hs : List (ObjectHeader × TagsPart)) :
    ∀ st st', runHeaders st hs = .ok st' → pathsOk st.tab → pathsOk st'.tab := by
  induction hs with
  | nil =>
    intro st st' h hp
    simp only [runHeaders, Except.ok.injEq] at h
    rw [← h]
    exact hp
  | cons p t ih =>
    intro st st' h hp
    obtain ⟨oh, pt⟩ := p
    rw [runHeaders] at h
    split at h
    · simp at h
    · rename_i st1 obj heq
      exact ih st1 st' h (add_object_pathsOk st oh pt st1 obj heq hp)

/-- Claim C8: for every non-root object entry created by add_object, its
path equals its name when the parent's path is ".", and otherwise the
parent's path followed by '/' and the name; in every table reachable by
a run of header records from the initial state, no path is empty or
begins with a slash, and the root's path is always ".". -/
theorem c8_path_construction :
    (∀ (st : State) (oh : ObjectHeader) (pt : TagsPart) (st' : State) (obj : Obj),
      add_object st oh pt = .ok (st', obj) → pt.objectId ≠ YAFFS_OBJECTID_ROOT →
      ∃ parent, get_object st.tab oh.parentObjectId = some parent ∧
        obj.path_name = (if parent.path_name = ['.'] then oh.name
                         else parent.path_name ++ '/' :: oh.name)) ∧
    (∀ (hs : List (ObjectHeader × TagsPart)) (st : State),
      runHeaders init_obj_list hs = .ok st →
      ∀ id o, get_object st.tab id = some o →
        o.path_name ≠ [] ∧ o.path_name.head? ≠ some '/' ∧
        (id = YAFFS_OBJECTID_ROOT → o.path_name = ['.'])) := by
  constructor
  · intro st oh pt st' obj h hroot
    simp only [add_object] at h
    rw [if_neg hroot] at h
    split at h
    · simp at h
    · split at h
      · simp at h
      · split at h
        · simp at h
        · split at h
          · simp at h
          · rename_i parent hpar
            split at h
            · simp at h
            · simp only [Except.ok.injEq, Prod.mk.injEq] at h
              exact ⟨parent, hpar, by rw [← h.2]⟩
  · intro hs st h id o hget
    have hp := runHeaders_pathsOk hs init_obj_list st h pathsOk_init
    have hmem := get_object_mem _ _ _ hget
    have hid := get_object_id _ _ _ hget
    have hx := hp _ _ hmem
    exact ⟨hx.1, hx.2.1, fun hc => hx.2.2 (hid.trans hc)⟩

/-- Witness for C8: creating file "a" under the root (whose path is ".")
yields path "a", and the root entry of the initial table has the
non-slash path ".". -/
theorem c8_path_construction_witness :
    ((add_object init_obj_list ⟨1, 1, ['a'], 0, 0, 0, 0, 0, 0, 0, [], 0⟩
        ⟨0, 2, 0, 0xffff⟩).toOption.map (fun r => r.2.path_name) = some ['a']) ∧
    rootObject.path_name ≠ [] ∧ rootObject.path_name = ['.'] := by
  refine ⟨?_, (c8_path_construction.2 [] init_obj_list rfl 1 rootObject rfl).1,
          (c8_path_construction.2 [] init_obj_list rfl 1 rootObject rfl).2.2 rfl⟩
  rcases hE : add_object init_obj_list ⟨1, 1, ['a'], 0, 0, 0, 0, 0, 0, 0, [], 0⟩
      ⟨0, 2, 0, 0xffff⟩ with e | r
  · exact absurd hE (by intro hc; cases hc)
  · obtain ⟨parent, hpar, hpath⟩ :=
      c8_path_construction.1 _ _ _ r.1 r.2 (by rw [hE]) (by decide)
    have hpr : parent = rootObject := by
      have h0 : get_object init_obj_list.tab 1 = some rootObject := rfl
      have := h0.symm.trans hpar
      simpa using this.symm
    simp [Except.toOption, hpath, hpr, rootObject]

theorem mem_possible_layouts (q : Nat × Nat) :
    q ∈ possible_layouts ↔
      q = (2048, 64) ∨ q = (4096, 128) ∨ q = (8192, 256) ∨ q = (16384, 512) := by
  simp [possible_layouts]

theorem find?_possible_layouts (f : Nat × Nat → Bool) (p : Nat × Nat) :
    possible_layouts.find? f = some p ↔
      (p ∈ possible_layouts ∧ f p = true ∧
       ∀ q ∈ possible_layouts, q.1 < p.1 → f q = false) := by
  by_cases h1 : f (2048, 64) = true
  · rw [show possible_layouts.find? f = some (2048, 64) by
      simp [possible_layouts, List.find?_cons, h1]]
    rw [Option.some.injEq]
    constructor
    · rintro rfl
      refine ⟨(mem_possible_layouts _).mpr (Or.inl rfl), h1, ?_⟩
      intro q hq hlt
      rcases (mem_possible_layouts q).mp hq with rfl | rfl | rfl | rfl <;>
        exact absurd hlt (by decide)
    · rintro ⟨hpm, hfp, hmin⟩
      rcases (mem_possible_layouts p).mp hpm with rfl | rfl | rfl | rfl
      · rfl
      · exact absurd (hmin (2048, 64) ((mem_possible_layouts _).mpr (Or.inl rfl)) (by decide))
          (by simp [h1])
      · exact absurd (hmin (2048, 64) ((mem_possible_layouts _).mpr (Or.inl rfl)) (by decide))
          (by simp [h1])
      · exact absurd (hmin (2048, 64) ((mem_possible_layouts _).mpr (Or.inl rfl)) (by decide))
          (by simp [h1])
  · have h1' : f (2048, 64) = false := by simpa using h1
    by_cases h2 : f (4096, 128) = true
    · rw [show possible_layouts.find? f = some (4096, 128) by
        simp [possible_layouts, List.find?_cons, h1', h2]]
      rw [Option.some.injEq]
      constructor
      · rintro rfl
        refine ⟨(mem_possible_layouts _).mpr (Or.inr (Or.inl rfl)), h2, ?_⟩
        intro q hq hlt
        rcases (mem_possible_layouts q).mp hq with rfl | rfl | rfl | rfl <;>
          first
            | exact h1'
            | exact absurd hlt (by decide)
      · rintro ⟨hpm, hfp, hmin⟩
        rcases (mem_possible_layouts p).mp hpm with rfl | rfl | rfl | rfl
        · exact absurd hfp (by simp [h1'])
        · rfl
        · exact absurd (hmin (4096, 128)
            ((mem_possible_layouts _).mpr (Or.inr (Or.inl rfl))) (by decide)) (by simp [h2])
        · exact absurd (hmin (4096, 128)
            ((mem_possible_layouts _).mpr (Or.inr (Or.inl rfl))) (by decide)) (by simp [h2])
    · have h2' : f (4096, 128) = false := by simpa using h2
      by_cases h3 : f (8192, 256) = true
      · rw [show possible_layouts.find? f = some (8192, 256) by
          simp [possible_layouts, List.find?_cons, h1', h2', h3]]
        rw [Option.some.injEq]
        constructor
        · rintro rfl
          refine ⟨(mem_possible_layouts _).mpr (Or.inr (Or.inr (Or.inl rfl))), h3, ?_⟩
          intro q hq hlt
          rcases (mem_possible_layouts q).mp hq with rfl | rfl | rfl | rfl <;>
            first
              | exact h1'
              | exact h2'
              | exact absurd hlt (by decide)
        · rintro ⟨hpm, hfp, hmin⟩
          rcases (mem_possible_layouts p).mp hpm with rfl | rfl | rfl | rfl
          · exact absurd hfp (by simp [h1'])
          · exact absurd hfp (by simp [h2'])
          · rfl
          · exact absurd (hmin (8192, 256)
              ((mem_possible_layouts _).mpr (Or.inr (Or.inr (Or.inl rfl)))) (by decide))
              (by simp [h3])
      · have h3' : f (8192, 256) = false := by simpa using h3
        by_cases h4 : f (16384, 512) = true
        · rw [show possible_layouts.find? f = some (16384, 512) by
            simp [possible_layouts, List.find?_cons, h1', h2', h3', h4]]
          rw [Option.some.injEq]
          constructor
          · rintro rfl
            refine ⟨(mem_possible_layouts _).mpr (Or.inr (Or.inr (Or.inr rfl))), h4, ?_⟩
            intro q hq hlt
            rcases (mem_possible_layouts q).mp hq with rfl | rfl | rfl | rfl <;>
              first
                | exact h1'
                | exact h2'
                | exact h3'
                | exact absurd hlt (by decide)
          · rintro ⟨hpm, hfp, hmin⟩
            rcases (mem_possible_layouts p).mp hpm with rfl | rfl | rfl | rfl
            · exact absurd hfp (by simp [h1'])
            · exact absurd hfp (by simp [h2'])
            · exact absurd hfp (by simp [h3'])
            · rfl
        · have h4' : f (16384, 512) = false := by simpa using h4
          rw [show possible_layouts.find? f = none by
            simp [possible_layouts, List.find?_cons, h1', h2', h3', h4']]
          constructor
          · intro h
            cases h
          · rintro ⟨hpm, hfp, _⟩
            rcases (mem_possible_layouts p).mp hpm with rfl | rfl | rfl | rfl
            · exact absurd hfp (by simp [h1'])
            · exact absurd hfp (by simp [h2'])
            · exact absurd hfp (by simp [h3'])
            · exact absurd hfp (by simp [h4'])

/-- Claim C3: layout detection fails with NotYaffs2 exactly when the
first object header does not declare parentObjectId 1 with a type in
{FILE, DIRECTORY, SYMLINK, HARDLINK, SPECIAL}; otherwise the result is
the layout with the smallest chunk size whose tag1 (at offset chunk) has
byteCount 0xFFFF and chunkId 0 and whose tag2 (at offset 2*chunk+spare)
either looks like a header tag too or is the first data chunk of tag1's
object — and UndetectableLayout when no candidate matches. -/
theorem c3_layout_detection (inp : DetectInput) :
    (detect_chunk_size inp = DetectResult.notYaffs2 ↔
      ¬(inp.oh.parentObjectId = YAFFS_OBJECTID_ROOT ∧
        (inp.oh.type = TYPE_FILE ∨ inp.oh.type = TYPE_DIRECTORY ∨
         inp.oh.type = TYPE_SYMLINK ∨ inp.oh.type = TYPE_HARDLINK ∨
         inp.oh.type = TYPE_SPECIAL))) ∧
    (∀ cs ss : Nat, detect_chunk_size inp = DetectResult.layout cs ss ↔
      (headerOk inp.oh = true ∧ (cs, ss) ∈ possible_layouts ∧
       layoutMatches inp.tagAt cs ss = true ∧
       ∀ q ∈ possible_layouts, q.1 < cs → layoutMatches inp.tagAt q.1 q.2 = false)) ∧
    ((headerOk inp.oh = true) →
      (∀ q ∈ possible_layouts, layoutMatches inp.tagAt q.1 q.2 = false) →
      detect_chunk_size inp = DetectResult.undetectable) := by
  have hball : (headerOk inp.oh = true) ↔
      (inp.oh.parentObjectId = YAFFS_OBJECTID_ROOT ∧
        (inp.oh.type = TYPE_FILE ∨ inp.oh.type = TYPE_DIRECTORY ∨
         inp.oh.type = TYPE_SYMLINK ∨ inp.oh.type = TYPE_HARDLINK ∨
         inp.oh.type = TYPE_SPECIAL)) := by
    simp [headerOk]
    tauto
  by_cases hOk : headerOk inp.oh = true
  · refine ⟨?_, ?_, ?_⟩
    · constructor
      · intro h
        exfalso
        unfold detect_chunk_size at h
        rw [hOk] at h
        simp only [Bool.not_true, Bool.false_eq_true, if_false] at h
        cases hfind : possible_layouts.find? (fun p => layoutMatches inp.tagAt p.1 p.2) with
        | none => rw [hfind] at h; simp at h
        | some p => rw [hfind] at h; simp at h
      · intro h
        exact absurd (hball.mp hOk) h
    · intro cs ss
      unfold detect_chunk_size
      rw [hOk]
      simp only [Bool.not_true, Bool.false_eq_true, if_false]
      cases hfind : possible_layouts.find? (fun p => layoutMatches inp.tagAt p.1 p.2) with
      | none =>
        constructor
        · intro h
          simp at h
        · rintro ⟨_, hmem, hmatch, _⟩
          have := List.find?_eq_none.mp hfind _ hmem
          simp [hmatch] at this
      | some p =>
        have hchar := (find?_possible_layouts _ p).mp hfind
        constructor
        · intro h
          have h1 : p.1 = cs ∧ p.2 = ss := by
            cases h
            exact ⟨rfl, rfl⟩
          obtain ⟨rfl, rfl⟩ := h1
          exact ⟨by trivial, hchar.1, hchar.2.1, hchar.2.2⟩
        · rintro ⟨_, hmem, hmatch, hmin⟩
          have h2 := (find?_possible_layouts _ (cs, ss)).mpr ⟨hmem, hmatch, hmin⟩
          rw [hfind, Option.some.injEq] at h2
          rw [h2]
    · intro _ hnone
      unfold detect_chunk_size
      rw [hOk]
      simp only [Bool.not_true, Bool.false_eq_true, if_false]
      rw [List.find?_eq_none.mpr (fun q hq => by simp [hnone q hq])]
  · have hOk' : headerOk inp.oh = false := by simpa using hOk
    have hd : detect_chunk_size inp = DetectResult.notYaffs2 := by
      unfold detect_chunk_size
      rw [hOk']
      simp
    refine ⟨?_, ?_, ?_⟩
    · rw [hd]
      simp only [true_iff]
      intro hc
      exact hOk (hball.mpr hc)
    · intro cs ss
      rw [hd]
      constructor
      · intro h
        cases h
      · rintro ⟨hok2, _⟩
        exact absurd hok2 hOk
    · intro hok2 _
      exact absurd hok2 hOk

/-- Witness for C3 at a concrete buffer: a valid first header (parent 1,
type DIRECTORY) whose tag at offset 4096 is a header tag and whose tag
at offset 8320 carries chunkId 1 of the same object, while offset 2048
holds garbage: detection picks the second-smallest layout (4096, 128);
with all tags garbage it reports UndetectableLayout instead. -/
theorem c3_layout_detection_witness :
    detect_chunk_size
      ⟨⟨3, 1, ['d'], 0, 0, 0, 0, 0, 0, 0, [], 0⟩,
       fun off => if off = 4096 then ⟨0, 7, 0, 0xffff⟩
                  else if off = 8320 then ⟨0, 7, 1, 2048⟩
                  else ⟨0, 0, 5, 12345⟩⟩ =
      DetectResult.layout 4096 128 ∧
    detect_chunk_size
      ⟨⟨3, 1, ['d'], 0, 0, 0, 0, 0, 0, 0, [], 0⟩, fun _ => ⟨0, 0, 5, 12345⟩⟩ =
      DetectResult.undetectable := by
  constructor
  · exact ((c3_layout_detection _).2.1 4096 128).mpr
      ⟨by decide, by decide, by decide, by decide⟩
  · exact (c3_layout_detection _).2.2 (by decide) (by decide)

theorem add_object_nonroot_shape (st : State) (oh : ObjectHeader) (pt : TagsPart)
    (st' : State) (obj : Obj) (h : add_object st oh pt = .ok (st', obj))
    (hroot : pt.objectId ≠ YAFFS_OBJECTID_ROOT) :
    get_object st.tab pt.objectId = none ∧
    obj.id = pt.objectId ∧ obj.type = oh.type ∧
    obj.atime = oh.yst_atime ∧ obj.mtime = oh.yst_mtime ∧
    obj.prev_dir_id = (if oh.type = TYPE_DIRECTORY then st.last_dir_id else 0) ∧
    st'.tab = st.tab.insert obj ∧
    st'.last_dir_id = (if oh.type = TYPE_DIRECTORY then pt.objectId else st.last_dir_id) ∧
    st'.warn = st.warn := by
  simp only [add_object] at h
  rw [if_neg hroot] at h
  split at h
  · simp at h
  split at h
  · simp at h
  split at h
  · simp at h
  rename_i hdup
  split at h
  · simp at h
  rename_i parent hpar
  split at h
  · simp at h
  simp only [Except.ok.injEq, Prod.mk.injEq] at h
  obtain ⟨hst, hobj⟩ := h
  subst hst
  subst hobj
  exact ⟨Option.not_isSome_iff_eq_none.mp (by simpa using hdup),
         rfl, rfl, rfl, rfl, rfl, rfl, rfl, rfl⟩

theorem add_object_root_shape (st : State) (oh : ObjectHeader) (pt : TagsPart)
    (st' : State) (obj : Obj) (h : add_object st oh pt = .ok (st', obj))
    (hroot : pt.objectId = YAFFS_OBJECTID_ROOT) :
    ∃ r, get_object st.tab YAFFS_OBJECTID_ROOT = some r ∧
      oh.type = TYPE_DIRECTORY ∧
      st'.tab = st.tab.setTimes YAFFS_OBJECTID_ROOT oh.yst_atime oh.yst_mtime ∧
      st'.last_dir_id = (if st.last_dir_id = 0 then YAFFS_OBJECTID_ROOT else st.last_dir_id) ∧
      st'.warn = st.warn := by
  simp only [add_object] at h
  rw [if_pos hroot] at h
  split at h
  · simp at h
  rename_i r hr
  split at h
  · simp at h
  rename_i hty
  push_neg at hty
  simp only [Except.ok.injEq, Prod.mk.injEq] at h
  obtain ⟨hst, _⟩ := h
  rw [hroot] at hr hst
  subst hst
  exact ⟨r, hr, hty, rfl, rfl, rfl⟩

theorem add_object_get_preserve (st : State) (oh : ObjectHeader) (pt : TagsPart)
    (st' : State) (obj : Obj) (h : add_object st oh pt = .ok (st', obj))
    (id : Nat) (hid : id ≠ YAFFS_OBJECTID_ROOT) (o : Obj)
    (hget : get_object st.tab id = some o) : get_object st'.tab id = some o := by
  by_cases hroot : pt.objectId = YAFFS_OBJECTID_ROOT
  · obtain ⟨r, _, _, hst, _, _⟩ := add_object_root_shape _ _ _ _ _ h hroot
    rw [hst, get_setTimes_ne _ _ _ _ _ hid]
    exact hget
  · obtain ⟨hnone, hido, _, _, _, _, hst, _, _⟩ := add_object_nonroot_shape _ _ _ _ _ h hroot
    have hne : id ≠ obj.id := by
      rw [hido]
      intro hc
      rw [hc] at hget
      rw [hnone] at hget
      cases hget
    rw [hst, get_insert_ne _ _ _ hne]
    exact hget

theorem runHeaders_get_preserve (hs : List (ObjectHeader × TagsPart)) :
    ∀ st st', runHeaders st hs = .ok st' →
      ∀ id, id ≠ YAFFS_OBJECTID_ROOT → ∀ o, get_object st.tab id = some o →
      get_object st'.tab id = some o := by
  induction hs with
  | nil =>
    intro st st' h id _ o hget
    simp only [runHeaders, Except.ok.injEq] at h
    rw [← h]
    exact hget
  | cons p t ih =>
    intro st st' h id hid o hget
    obtain ⟨oh, pt⟩ := p
    rw [runHeaders] at h
    split at h
    · simp at h
    · rename_i st1 obj heq
      exact ih st1 st' h id hid o (add_object_get_preserve st oh pt st1 obj heq id hid o hget)

theorem runHeaders_times (hs : List (ObjectHeader × TagsPart)) :
    ∀ st st', runHeaders st hs = .ok st' →
      ∀ p ∈ hs, p.2.objectId ≠ YAFFS_OBJECTID_ROOT →
        ∃ o, get_object st'.tab p.2.objectId = some o ∧
          o.atime = p.1.yst_atime ∧ o.mtime = p.1.yst_mtime := by
  induction hs with
  | nil =>
    intro st st' h p hp
    cases hp
  | cons q t ih =>
    intro st st' h p hp hq
    obtain ⟨oh, pt⟩ := q
    rw [runHeaders] at h
    split at h
    · simp at h
    · rename_i st1 obj heq
      rcases List.mem_cons.mp hp with rfl | hmem
      · obtain ⟨_, hido, _, hat, hmt, _, hst, _, _⟩ :=
          add_object_nonroot_shape _ _ _ _ _ heq hq
        have h2 : get_object st1.tab pt.objectId = some obj := by
          rw [hst, ← hido]
          exact get_insert_self _ _
        exact ⟨obj, runHeaders_get_preserve t st1 st' h pt.objectId hq obj h2, hat, hmt⟩
      · exact ih st1 st' h p hmem hq

theorem chainIs_mem_get (tab : HTable) : ∀ (last : Nat) (os : List Obj),
    chainIs tab last os → ∀ o ∈ os, get_object tab o.id = some o := by
  intro last os
  induction os generalizing last with
  | nil =>
    intro _ o ho
    cases ho
  | cons x xs ih =>
    rintro ⟨h1, h2, h3⟩ o ho
    rcases List.mem_cons.mp ho with rfl | hm
    · rw [← h1]
      exact h2
    · exact ih x.prev_dir_id h3 o hm

theorem chainIs_insert (tab : HTable) (x : Obj) (hx : get_object tab x.id = none) :
    ∀ (last : Nat) (os : List Obj), chainIs tab last os →
      chainIs (tab.insert x) last os := by
  intro last os
  induction os generalizing last with
  | nil =>
    intro h
    exact h
  | cons o os ih =>
    rintro ⟨h1, h2, h3⟩
    have hne : o.id ≠ x.id := by
      intro hc
      rw [h1, hc] at h2
      rw [hx] at h2
      cases h2
    refine ⟨h1, ?_, ih o.prev_dir_id h3⟩
    rw [h1, get_insert_ne _ _ _ hne, ← h1]
    exact h2

theorem chainIs_setTimes_root (tab : HTable) (a m : Nat) :
    ∀ (last : Nat) (os : List Obj), chainIs tab last os →
      chainIs (tab.setTimes YAFFS_OBJECTID_ROOT a m) last
        (os.map (fun o => if o.id = YAFFS_OBJECTID_ROOT
                          then { o with atime := a, mtime := m } else o)) := by
  intro last os
  induction os generalizing last with
  | nil =>
    intro h
    exact h
  | cons o os ih =>
    rintro ⟨h1, h2, h3⟩
    by_cases ho : o.id = YAFFS_OBJECTID_ROOT
    · refine ⟨by simpa [ho] using h1, ?_, by simpa [ho] using ih o.prev_dir_id h3⟩
      dsimp only
      rw [if_pos ho, h1, ho, get_setTimes_self]
      rw [h1, ho] at h2
      rw [h2]
      simp [ho]
    · refine ⟨by simpa [ho] using h1, ?_, by simpa [ho] using ih o.prev_dir_id h3⟩
      dsimp only
      rw [if_neg ho, h1, get_setTimes_ne _ _ _ _ _ ho, ← h1]
      exact h2

theorem setTimes_rootPrev (tab : HTable) (a m : Nat)
    (hrp : ∀ r, get_object tab YAFFS_OBJECTID_ROOT = some r → r.prev_dir_id = 0) :
    ∀ r', get_object (tab.setTimes YAFFS_OBJECTID_ROOT a m) YAFFS_OBJECTID_ROOT = some r' →
      r'.prev_dir_id = 0 := by
  intro r' hr'
  rw [get_setTimes_self] at hr'
  cases hgr : get_object tab YAFFS_OBJECTID_ROOT with
  | none =>
    rw [hgr] at hr'
    simp at hr'
  | some r0 =>
    rw [hgr] at hr'
    simp only [Option.map_some', Option.some.injEq] at hr'
    rw [← hr']
    simpa using hrp r0 hgr

theorem insert_rootPrev (tab : HTable) (x : Obj) (hx : x.id ≠ YAFFS_OBJECTID_ROOT)
    (hrp : ∀ r, get_object tab YAFFS_OBJECTID_ROOT = some r → r.prev_dir_id = 0) :
    ∀ r', get_object (tab.insert x) YAFFS_OBJECTID_ROOT = some r' → r'.prev_dir_id = 0 := by
  intro r' hr'
  rw [get_insert_ne _ _ _ (Ne.symm hx)] at hr'
  exact hrp r' hr'

theorem add_object_chain (st : State) (oh : ObjectHeader) (pt : TagsPart)
    (st' : State) (obj : Obj) (os : List Obj)
    (h : add_object st oh pt = .ok (st', obj))
    (hchain : chainIs st.tab st.last_dir_id os)
    (hnz : ∀ o ∈ os, o.id ≠ 0)
    (hzid : oh.type = TYPE_DIRECTORY → pt.objectId ≠ YAFFS_OBJECTID_ROOT → pt.objectId ≠ 0)
    (hrp : ∀ r, get_object st.tab YAFFS_OBJECTID_ROOT = some r → r.prev_dir_id = 0) :
    ∃ os', chainIs st'.tab st'.last_dir_id os' ∧ (∀ o ∈ os', o.id ≠ 0) ∧
      os'.map (fun o => o.id) =
        (if pt.objectId = YAFFS_OBJECTID_ROOT then
           (if os.map (fun o => o.id) = ([] : List Nat) then [YAFFS_OBJECTID_ROOT]
            else os.map (fun o => o.id))
         else if oh.type = TYPE_DIRECTORY then pt.objectId :: os.map (fun o => o.id)
         else os.map (fun o => o.id)) ∧
      (∀ r, get_object st'.tab YAFFS_OBJECTID_ROOT = some r → r.prev_dir_id = 0) := by
  by_cases hroot : pt.objectId = YAFFS_OBJECTID_ROOT
  · obtain ⟨r, hr, hty, hst, hlast, _⟩ := add_object_root_shape _ _ _ _ _ h hroot
    rw [if_pos hroot]
    have hrid : r.id = YAFFS_OBJECTID_ROOT := get_object_id _ _ _ hr
    by_cases hl0 : st.last_dir_id = 0
    · have hosnil : os = [] := by
        cases os with
        | nil => rfl
        | cons x xs =>
          obtain ⟨h1, _, _⟩ := hchain
          exact absurd (h1.symm.trans hl0) (hnz x (List.mem_cons_self x xs))
      subst hosnil
      refine ⟨[{ r with atime := oh.yst_atime, mtime := oh.yst_mtime }], ?_, ?_, ?_, ?_⟩
      · rw [hst, hlast, if_pos hl0]
        refine ⟨by simpa using hrid.symm, ?_, ?_⟩
        · rw [get_setTimes_self, hr]
          rfl
        · exact hrp r hr
      · intro o ho
        rcases List.mem_cons.mp ho with rfl | hm
        · simp [hrid, YAFFS_OBJECTID_ROOT]
        · cases hm
      · simp [hrid]
      · rw [hst]
        exact setTimes_rootPrev _ _ _ hrp
    · have hlast' : st'.last_dir_id = st.last_dir_id := by rw [hlast, if_neg hl0]
      have hosne : os.map (fun o => o.id) ≠ ([] : List Nat) := by
        cases os with
        | nil => exact absurd hchain hl0
        | cons _ _ => simp
      rw [if_neg hosne]
      refine ⟨os.map (fun o => if o.id = YAFFS_OBJECTID_ROOT
                then { o with atime := oh.yst_atime, mtime := oh.yst_mtime } else o),
              ?_, ?_, ?_, ?_⟩
      · rw [hst, hlast']
        exact chainIs_setTimes_root _ _ _ _ _ hchain
      · intro o ho
        obtain ⟨y, hy, rfl⟩ := List.mem_map.mp ho
        by_cases hy1 : y.id = YAFFS_OBJECTID_ROOT
        · simpa [hy1] using hnz y hy
        · simpa [hy1] using hnz y hy
      · rw [List.map_map]
        refine List.map_congr_left ?_
        intro y _
        by_cases hy1 : y.id = YAFFS_OBJECTID_ROOT <;> simp [hy1]
      · rw [hst]
        exact setTimes_rootPrev _ _ _ hrp
  · obtain ⟨hnone, hido, htyo, _, _, hprev, hst, hlast, _⟩ :=
      add_object_nonroot_shape _ _ _ _ _ h hroot
    rw [if_neg hroot]
    have hget0 : get_object st.tab obj.id = none := by
      rw [hido]
      exact hnone
    by_cases hdir : oh.type = TYPE_DIRECTORY
    · rw [if_pos hdir]
      refine ⟨obj :: os, ?_, ?_, ?_, ?_⟩
      · rw [hst, hlast, if_pos hdir]
        refine ⟨hido.symm, ?_, ?_⟩
        · rw [← hido]
          exact get_insert_self _ _
        · rw [hprev, if_pos hdir]
          exact chainIs_insert st.tab obj hget0 _ _ hchain
      · intro o ho
        rcases List.mem_cons.mp ho with rfl | hm
        · rw [hido]
          exact hzid hdir hroot
        · exact hnz o hm
      · simp [hido]
      · rw [hst]
        exact insert_rootPrev _ _ (by rw [hido]; exact hroot) hrp
    · rw [if_neg hdir]
      refine ⟨os, ?_, hnz, rfl, ?_⟩
      · rw [hst, hlast, if_neg hdir]
        exact chainIs_insert st.tab obj hget0 _ _ hchain
      · rw [hst]
        exact insert_rootPrev _ _ (by rw [hido]; exact hroot) hrp

theorem runHeaders_chain (hs : List (ObjectHeader × TagsPart)) :
    ∀ st st', runHeaders st hs = .ok st' →
      ∀ os, chainIs st.tab st.last_dir_id os → (∀ o ∈ os, o.id ≠ 0) →
      (∀ r, get_object st.tab YAFFS_OBJECTID_ROOT = some r → r.prev_dir_id = 0) →
      (∀ p ∈ hs, p.1.type = TYPE_DIRECTORY → p.2.objectId ≠ YAFFS_OBJECTID_ROOT →
        p.2.objectId ≠ 0) →
      ∃ os', chainIs st'.tab st'.last_dir_id os' ∧ (∀ o ∈ os', o.id ≠ 0) ∧
        os'.map (fun o => o.id) = chainAfter hs (os.map (fun o => o.id)) := by
  induction hs with
  | nil =>
    intro st st' h os hchain hnz hrp _
    simp only [runHeaders, Except.ok.injEq] at h
    subst h
    exact ⟨os, hchain, hnz, rfl⟩
  | cons q t ih =>
    intro st st' h os hchain hnz hrp hz
    obtain ⟨oh, pt⟩ := q
    rw [runHeaders] at h
    split at h
    · simp at h
    · rename_i st1 obj heq
      obtain ⟨os1, hc1, hnz1, hids1, hrp1⟩ :=
        add_object_chain st oh pt st1 obj os heq hchain hnz
          (fun hd hnr => hz (oh, pt) (List.mem_cons_self _ _) hd hnr) hrp
      obtain ⟨os', hc', hnz', hids'⟩ :=
        ih st1 st' h os1 hc1 hnz1 hrp1 (fun p hp => hz p (List.mem_cons_of_mem _ hp))
      refine ⟨os', hc', hnz', ?_⟩
      rw [hids', hids1]
      by_cases hr2 : pt.objectId = YAFFS_OBJECTID_ROOT
      · simp [chainAfter, hr2]
      · by_cases hd2 : oh.type = TYPE_DIRECTORY
        · simp [chainAfter, hr2, hd2]
        · simp [chainAfter, hr2, hd2]

theorem chainAfter_ne_nil (hs : List (ObjectHeader × TagsPart)) :
    ∀ l : List Nat, l ≠ [] → chainAfter hs l = (createdDirs hs).reverse ++ l := by
  induction hs with
  | nil =>
    intro l _
    simp [chainAfter, createdDirs]
  | cons q t ih =>
    intro l hl
    obtain ⟨oh, pt⟩ := q
    by_cases hr : pt.objectId = YAFFS_OBJECTID_ROOT
    · simp only [chainAfter, createdDirs]
      rw [if_pos hr, if_neg hl, ih l hl, if_neg (by simp [hr])]
    · by_cases hd : oh.type = TYPE_DIRECTORY
      · simp only [chainAfter, createdDirs]
        rw [if_neg hr, if_pos hd, ih (pt.objectId :: l) (by simp), if_pos ⟨hr, hd⟩]
        simp
      · simp only [chainAfter, createdDirs]
        rw [if_neg hr, if_neg hd, ih l hl, if_neg (by simp [hd])]

theorem chainAfter_nil_eq (hs : List (ObjectHeader × TagsPart)) :
    chainAfter hs [] =
      (createdDirs hs).reverse ++
        (if rootInChain hs then [YAFFS_OBJECTID_ROOT] else []) := by
  induction hs with
  | nil =>
    simp [chainAfter, createdDirs, rootInChain]
  | cons q t ih =>
    obtain ⟨oh, pt⟩ := q
    by_cases hr : pt.objectId = YAFFS_OBJECTID_ROOT
    · have h1 : chainAfter ((oh, pt) :: t) ([] : List Nat) =
          chainAfter t [YAFFS_OBJECTID_ROOT] := by
        simp [chainAfter, hr]
      have h2 : createdDirs ((oh, pt) :: t) = createdDirs t := by
        simp [createdDirs, hr]
      have h3 : rootInChain ((oh, pt) :: t) = true := by
        simp [rootInChain, hr]
      rw [h1, chainAfter_ne_nil t [YAFFS_OBJECTID_ROOT] (by simp), h2, h3, if_pos rfl]
    · by_cases hd : oh.type = TYPE_DIRECTORY
      · have h1 : chainAfter ((oh, pt) :: t) ([] : List Nat) =
            chainAfter t [pt.objectId] := by
          simp [chainAfter, hr, hd]
        have h2 : createdDirs ((oh, pt) :: t) = pt.objectId :: createdDirs t := by
          simp [createdDirs, hr, hd]
        have h3 : rootInChain ((oh, pt) :: t) = false := by
          simp [rootInChain, hr, hd]
        rw [h1, chainAfter_ne_nil t [pt.objectId] (by simp), h2, h3, if_neg (by simp)]
        simp
      · have h1 : chainAfter ((oh, pt) :: t) ([] : List Nat) =
            chainAfter t ([] : List Nat) := by
          simp [chainAfter, hr, hd]
        have h2 : createdDirs ((oh, pt) :: t) = createdDirs t := by
          simp [createdDirs, hr, hd]
        have h3 : rootInChain ((oh, pt) :: t) = rootInChain t := by
          simp [rootInChain, hr, hd]
        rw [h1, h2, h3, ih]

theorem walk_of_chain (os : List Obj) :
    ∀ (tab : HTable) (last fuel : Nat), chainIs tab last os →
      (∀ o ∈ os, o.id ≠ 0) → os.length ≤ fuel →
      set_dirs_utime fuel tab last =
        os.map (fun o => (o.path_name, o.atime, o.mtime)) := by
  induction os with
  | nil =>
    intro tab last fuel hc _ _
    have hc0 : last = 0 := hc
    cases fuel with
    | zero => rfl
    | succ f =>
      rw [set_dirs_utime, if_pos hc0]
      rfl
  | cons o os ih =>
    rintro tab last fuel ⟨h1, h2, h3⟩ hnz hf
    cases fuel with
    | zero =>
      simp at hf
    | succ f =>
      have h2' := h2
      rw [h1] at h2'
      rw [set_dirs_utime, if_neg (by rw [h1]; exact hnz o (List.mem_cons_self o os)), h1]
      simp only [h2', List.map_cons]
      rw [ih tab o.prev_dir_id f h3 (fun x hx => hnz x (List.mem_cons_of_mem _ hx))
          (by simp at hf; omega)]

theorem createdDirs_length_le (hs : List (ObjectHeader × TagsPart)) :
    (createdDirs hs).length ≤ hs.length := by
  induction hs with
  | nil =>
    simp [createdDirs]
  | cons q t ih =>
    obtain ⟨oh, pt⟩ := q
    simp only [createdDirs]
    split
    · simpa using Nat.succ_le_succ ih
    · exact Nat.le_succ_of_le ih

/-- Counterexample to Claim C4 as stated: a DIRECTORY header carrying
object id 0 — which add_object accepts — overwrites last_dir_id with 0,
the chain terminator, so after the stream ends set_dirs_utime applies no
timestamps at all even though a directory ("d", declared mtime 5) was
created during extraction; that directory does not end with its header
mtime applied. -/
theorem c4_dir_utime_counterexample :
    ((runHeaders init_obj_list
        [(⟨3, 1, ['d'], 0, 0, 0, 0, 5, 0, 0, [], 0⟩, ⟨0, 0, 0, 0xffff⟩)]).toOption.map
      (fun st => set_dirs_utime 2 st.tab st.last_dir_id) = some []) ∧
    createdDirs [(⟨3, 1, ['d'], 0, 0, 0, 0, 5, 0, 0, [], 0⟩, ⟨0, 0, 0, 0xffff⟩)] = [0] :=
  ⟨rfl, rfl⟩

/-- Claim C4 (amended): provided every non-root DIRECTORY header carries a
nonzero object id, after the record stream ends the timestamp replay
walks from last_dir_id backward through prev_dir_id, visiting exactly the
created directories in reverse creation order (with the root at the
bottom exactly when a root header preceded every directory creation),
applying each visited entry's stored (atime, mtime); and every
non-root object's stored times — in particular every created
directory's — are exactly those declared in its header. -/
theorem c4_dir_utime_replay_amended (hs : List (ObjectHeader × TagsPart)) (st : State)
    (fuel : Nat) (hrun : runHeaders init_obj_list hs = .ok st)
    (hfuel : hs.length < fuel)
    (hz : ∀ p ∈ hs, p.1.type = TYPE_DIRECTORY → p.2.objectId ≠ YAFFS_OBJECTID_ROOT →
          p.2.objectId ≠ 0) :
    ∃ os : List Obj,
      set_dirs_utime fuel st.tab st.last_dir_id =
        os.map (fun o => (o.path_name, o.atime, o.mtime)) ∧
      os.map (fun o => o.id) =
        (createdDirs hs).reverse ++
          (if rootInChain hs then [YAFFS_OBJECTID_ROOT] else []) ∧
      (∀ o ∈ os, get_object st.tab o.id = some o) ∧
      (∀ p ∈ hs, p.2.objectId ≠ YAFFS_OBJECTID_ROOT →
        ∃ o, get_object st.tab p.2.objectId = some o ∧
          o.atime = p.1.yst_atime ∧ o.mtime = p.1.yst_mtime) := by
  have hchain0 : chainIs init_obj_list.tab init_obj_list.last_dir_id [] := rfl
  have hnz0 : ∀ o ∈ ([] : List Obj), o.id ≠ 0 := by
    intro o ho
    cases ho
  have hrp0 : ∀ r, get_object init_obj_list.tab YAFFS_OBJECTID_ROOT = some r →
      r.prev_dir_id = 0 := by
    intro r hr
    have h0 : get_object init_obj_list.tab YAFFS_OBJECTID_ROOT = some rootObject := rfl
    rw [h0] at hr
    simp only [Option.some.injEq] at hr
    rw [← hr]
    rfl
  obtain ⟨os, hc, hnz, hids⟩ :=
    runHeaders_chain hs init_obj_list st hrun [] hchain0 hnz0 hrp0 hz
  simp only [List.map_nil] at hids
  rw [chainAfter_nil_eq] at hids
  have hlen : os.length ≤ fuel := by
    have hl := congrArg List.length hids
    rw [List.length_map, List.length_append, List.length_reverse] at hl
    have hcd := createdDirs_length_le hs
    by_cases hric : rootInChain hs
    · rw [if_pos hric] at hl
      simp at hl
      omega
    · rw [if_neg hric] at hl
      simp at hl
      omega
  exact ⟨os, walk_of_chain os st.tab st.last_dir_id fuel hc hnz hlen, hids,
         chainIs_mem_get st.tab st.last_dir_id os hc,
         runHeaders_times hs init_obj_list st hrun⟩

/-- Witness for the amended C4: run a root header, directory "d" (id 2,
atime 5, mtime 6) and a file under it; the replay then visits exactly
[2, 1] (directory "d" first, root last) — two utime applications — and
the directory's stored mtime equals the declared 6. -/
theorem c4_dir_utime_replay_amended_witness :
    ((runHeaders init_obj_list
        [(⟨3, 1, [], 0, 0, 0, 7, 8, 0, 0, [], 0⟩, ⟨0, 1, 0, 0xffff⟩),
         (⟨3, 1, ['d'], 0, 0, 0, 5, 6, 0, 0, [], 0⟩, ⟨0, 2, 0, 0xffff⟩),
         (⟨1, 2, ['f'], 0, 0, 0, 0, 0, 0, 0, [], 0⟩, ⟨0, 3, 0, 0xffff⟩)]).toOption.map
      (fun st => (set_dirs_utime 4 st.tab st.last_dir_id).length) = some 2) ∧
    createdDirs
        [(⟨3, 1, [], 0, 0, 0, 7, 8, 0, 0, [], 0⟩, ⟨0, 1, 0, 0xffff⟩),
         (⟨3, 1, ['d'], 0, 0, 0, 5, 6, 0, 0, [], 0⟩, ⟨0, 2, 0, 0xffff⟩),
         (⟨1, 2, ['f'], 0, 0, 0, 0, 0, 0, 0, [], 0⟩, ⟨0, 3, 0, 0xffff⟩)] = [2] := by
  refine ⟨?_, by rfl⟩
  have hok : isOkE (runHeaders init_obj_list
      [(⟨3, 1, [], 0, 0, 0, 7, 8, 0, 0, [], 0⟩, ⟨0, 1, 0, 0xffff⟩),
       (⟨3, 1, ['d'], 0, 0, 0, 5, 6, 0, 0, [], 0⟩, ⟨0, 2, 0, 0xffff⟩),
       (⟨1, 2, ['f'], 0, 0, 0, 0, 0, 0, 0, [], 0⟩, ⟨0, 3, 0, 0xffff⟩)]) = true := by rfl
  rcases hE : runHeaders init_obj_list
      [(⟨3, 1, [], 0, 0, 0, 7, 8, 0, 0, [], 0⟩, ⟨0, 1, 0, 0xffff⟩),
       (⟨3, 1, ['d'], 0, 0, 0, 5, 6, 0, 0, [], 0⟩, ⟨0, 2, 0, 0xffff⟩),
       (⟨1, 2, ['f'], 0, 0, 0, 0, 0, 0, 0, [], 0⟩, ⟨0, 3, 0, 0xffff⟩)] with e | st
  · rw [hE] at hok
    simp [isOkE] at hok
  · obtain ⟨os, hwalk, hids, _, _⟩ :=
      c4_dir_utime_replay_amended _ st 4 hE (by decide) (by decide)
    simp only [Except.toOption, Option.map_some']
    rw [hwalk, List.length_map]
    have := congrArg List.length hids
    rw [List.length_map] at this
    rw [this]
    rfl

theorem toInt32_of_range (z : Int) (h1 : -2147483648 ≤ z) (h2 : z ≤ 2147483647) :
    toInt32 z = z := by
  unfold toInt32
  dsimp only
  by_cases hm : z % 4294967296 < 2147483648
  · rw [if_pos hm]
    omega
  · rw [if_neg hm]
    omega

theorem consumeData_rest_mem (l : List Chunk) :
    ∀ (remain : Int) (bs : List Nat) (l' : List Chunk),
      consumeData remain l = some (bs, l') → ∀ c ∈ l', c ∈ l := by
  induction l with
  | nil =>
    intro remain bs l' h c hc
    simp only [consumeData] at h
    by_cases h0 : remain ≤ 0
    · rw [if_pos h0] at h
      simp only [Option.some.injEq, Prod.mk.injEq] at h
      rw [← h.2] at hc
      cases hc
    · rw [if_neg h0] at h
      cases h
  | cons x xs ih =>
    intro remain bs l' h c hc
    simp only [consumeData] at h
    by_cases h0 : remain ≤ 0
    · rw [if_pos h0] at h
      simp only [Option.some.injEq, Prod.mk.injEq] at h
      rw [← h.2] at hc
      exact hc
    · rw [if_neg h0] at h
      cases hin : consumeData (remain - min remain (x.tag.byteCount : Int)) xs with
      | none =>
        rw [hin] at h
        cases h
      | some p =>
        obtain ⟨bs0, l0⟩ := p
        rw [hin] at h
        simp only [Option.some.injEq, Prod.mk.injEq] at h
        rw [← h.2] at hc
        exact List.mem_cons_of_mem _ (ih _ _ _ hin c hc)


theorem materialize_file_shape (st : State) (oh : ObjectHeader) (pt : TagsPart)
    (obj : Obj) (rest : List Chunk) (evs : List Event) (rest' : List Chunk)
    (h : materialize st oh pt obj rest = .ok (evs, rest'))
    (hfile : oh.type = TYPE_FILE) :
    ∃ content, consumeData oh.fileSize rest = some (content, rest') := by
  rw [materialize, if_pos hfile] at h
  cases hcons : consumeData oh.fileSize rest with
  | none =>
    rw [hcons] at h
    cases h
  | some p =>
    obtain ⟨content, r2⟩ := p
    rw [hcons] at h
    simp only [Except.ok.injEq, Prod.mk.injEq] at h
    exact ⟨content, by rw [h.2]⟩

theorem materialize_nonfile_rest (st : State) (oh : ObjectHeader) (pt : TagsPart)
    (obj : Obj) (rest : List Chunk) (evs : List Event) (rest' : List Chunk)
    (h : materialize st oh pt obj rest = .ok (evs, rest'))
    (hfile : oh.type ≠ TYPE_FILE) : rest' = rest := by
  rw [materialize, if_neg hfile] at h
  split at h
  · simp only [Except.ok.injEq, Prod.mk.injEq] at h
    exact h.2.symm
  split at h
  · simp only [Except.ok.injEq, Prod.mk.injEq] at h
    exact h.2.symm
  split at h
  · split at h
    · cases h
    · simp only [Except.ok.injEq, Prod.mk.injEq] at h
      exact h.2.symm
  split at h
  · simp only [Except.ok.injEq, Prod.mk.injEq] at h
    exact h.2.symm
  · simp only [Except.ok.injEq, Prod.mk.injEq] at h
    exact h.2.symm

/-- The chunks the extract-mode FILE loop would consume for a remaining
count `remain` all carry a byteCount representable in a signed 32-bit
int (so the list-mode subtraction `remain -= byteCount` cannot wrap).
Chunks beyond the point where `remain` reaches 0 are unconstrained. -/
def consumedOk : Int → List Chunk → Bool
  | remain, l =>
    if remain ≤ 0 then true
    else
      match l with
      | [] => true
      | c :: rest =>
        decide ((c.tag.byteCount : Int) < 2147483648) &&
        consumedOk (remain - min remain (c.tag.byteCount : Int)) rest

/-- Data-region well-formedness of a chunk stream: every FILE header
declares a fileSize in signed 32-bit range (as any C int does) and the
chunks its data loop consumes satisfy `consumedOk`; chunks outside file
data regions — in particular erased 0xFFFFFFFF chunks between objects —
are unconstrained.  Follows the same stream walk as the main loop. -/
def fileDataOk : Nat → List Chunk → Bool
  | _, [] => true
  | 0, _ :: _ => true
  | fuel + 1, c :: rest =>
    match classifyTag c.tag with
    | .header =>
      if c.oh.type = TYPE_FILE then
        (decide (c.oh.fileSize ≤ 2147483647) && consumedOk c.oh.fileSize rest) &&
        (match consumeData c.oh.fileSize rest with
         | none => true
         | some (_, rest') => fileDataOk fuel rest')
      else fileDataOk fuel rest
    | _ => fileDataOk fuel rest

theorem skipData_eq_consumeData_ok (l : List Chunk) :
    ∀ remain : Int, remain ≤ 2147483647 → consumedOk remain l = true →
      skipData remain l = (consumeData remain l).map (fun p => p.2) := by
  induction l with
  | nil =>
    intro remain hr _
    by_cases h0 : remain ≤ 0
    · rw [skipData, consumeData, if_pos h0, if_pos h0]
      rfl
    · rw [skipData, consumeData, if_neg h0, if_neg h0]
      rfl
  | cons c cs ih =>
    intro remain hr hok
    by_cases h0 : remain ≤ 0
    · rw [skipData, consumeData, if_pos h0, if_pos h0]
      rfl
    · simp only [consumedOk] at hok
      rw [if_neg h0, Bool.and_eq_true] at hok
      have hbc : (c.tag.byteCount : Int) < 2147483648 := of_decide_eq_true hok.1
      have hok' := hok.2
      simp only [skipData, consumeData]
      rw [if_neg h0, if_neg h0]
      by_cases hble : (c.tag.byteCount : Int) ≤ remain
      · have hmin : min remain (c.tag.byteCount : Int) = (c.tag.byteCount : Int) :=
          min_eq_right hble
        rw [hmin] at hok'
        rw [hmin, toInt32_of_range _ (by omega) (by omega)]
        rw [ih (remain - c.tag.byteCount) (by omega) hok']
        cases hin : consumeData (remain - (c.tag.byteCount : Int)) cs with
        | none => simp [hin]
        | some p => simp [hin]
      · have hmin : min remain (c.tag.byteCount : Int) = remain := min_eq_left (by omega)
        have hneg : remain - (c.tag.byteCount : Int) ≤ 0 := by omega
        rw [hmin, toInt32_of_range _ (by omega) (by omega), sub_self]
        rw [show skipData (remain - (c.tag.byteCount : Int)) cs = some cs by
          rw [skipData.eq_def]
          dsimp only
          rw [if_pos hneg]]
        rw [show consumeData (0 : Int) cs = some ([], cs) by
          rw [consumeData.eq_def]
          dsimp only
          simp]
        simp

/-- Counterexample to Claim C9 as stated: an erased (byteCount
0xFFFFFFFF) chunk lying inside a FILE's data region desynchronizes the
two modes, so the reader does not stay aligned and the printed paths
differ.  Extract mode caps each write at `min(remain, byteCount)`
(unyaffs.c:434) and finishes the 5-byte file on that single chunk, then
processes the following DIRECTORY header; list mode instead computes
`remain -= byteCount` in 32-bit int arithmetic (unyaffs.c:419), which
wraps 5 − 0xFFFFFFFF to 6, so its skip loop also swallows the DIRECTORY
header.  Extraction prints ["a", "d"], list mode prints only ["a"]. -/
theorem c9_list_mode_counterexample :
    (runImage false 3 init_obj_list
        [⟨⟨1, 1, ['a'], 0, 0, 0, 0, 0, 5, 0, [], 0⟩, ⟨0, 2, 0, 0xffff⟩, []⟩,
         ⟨⟨0, 0, [], 0, 0, 0, 0, 0, 0, 0, [], 0⟩, ⟨0, 0, 0, 0xffffffff⟩, [9, 9, 9, 9, 9]⟩,
         ⟨⟨3, 1, ['d'], 0, 0, 0, 0, 0, 0, 0, [], 0⟩, ⟨0, 3, 0, 0xffff⟩, []⟩]).toOption.map
      (fun r => r.2.2) = some [['a'], ['d']] ∧
    (runImage true 3 init_obj_list
        [⟨⟨1, 1, ['a'], 0, 0, 0, 0, 0, 5, 0, [], 0⟩, ⟨0, 2, 0, 0xffff⟩, []⟩,
         ⟨⟨0, 0, [], 0, 0, 0, 0, 0, 0, 0, [], 0⟩, ⟨0, 0, 0, 0xffffffff⟩, [9, 9, 9, 9, 9]⟩,
         ⟨⟨3, 1, ['d'], 0, 0, 0, 0, 0, 0, 0, [], 0⟩, ⟨0, 3, 0, 0xffff⟩, []⟩]).toOption.map
      (fun r => r.2.2) = some [['a']] :=
  ⟨rfl, rfl⟩

/-- Claim C9 (amended): provided no chunk consumed as FILE data carries a
byteCount outside signed 32-bit range (`fileDataOk`; in particular no
erased 0xFFFFFFFF chunk sits inside a FILE's data region — erased chunks
between objects remain unconstrained), a successful extraction run
implies the -t run over the same image succeeds with the same final
state, performs no filesystem side effects (only printPath and warning
events), consumes the same chunks, and prints exactly the extraction's
ordered path sequence. -/
theorem c9_list_mode_amended (fuel : Nat) :
    ∀ (chunks : List Chunk) (st st' : State) (ev : List Event) (ps : List (List Char)),
      fileDataOk fuel chunks = true →
      runImage false fuel st chunks = .ok (st', ev, ps) →
      ∃ evL, runImage true fuel st chunks = .ok (st', evL, ps) ∧
        (∀ e ∈ evL, isFsEvent e = false) ∧
        evL.filterMap pathOfPrint = ps := by
  induction fuel with
  | zero =>
    intro chunks st st' ev ps _ h
    cases chunks with
    | nil =>
      simp only [runImage, Except.ok.injEq, Prod.mk.injEq] at h
      obtain ⟨h1, h2, h3⟩ := h
      refine ⟨[], ?_, fun e he => absurd he (List.not_mem_nil e), by rw [← h3]; rfl⟩
      simp only [runImage]
      rw [h1, h3]
    | cons c cs =>
      simp only [runImage] at h
      cases h
  | succ f ih =>
    intro chunks st st' ev ps hdo h
    cases chunks with
    | nil =>
      simp only [runImage, Except.ok.injEq, Prod.mk.injEq] at h
      obtain ⟨h1, h2, h3⟩ := h
      refine ⟨[], ?_, fun e he => absurd he (List.not_mem_nil e), by rw [← h3]; rfl⟩
      simp only [runImage]
      rw [h1, h3]
    | cons c cs =>
      simp only [runImage] at h ⊢
      cases hcl : classifyTag c.tag with
      | empty =>
        simp only [fileDataOk, hcl] at hdo
        simp only [hcl] at h ⊢
        exact ih cs st st' ev ps hdo h
      | malformed =>
        simp only [fileDataOk, hcl] at hdo
        simp only [hcl] at h ⊢
        by_cases hw : st.warn + 1 ≥ MAX_WARN
        · rw [if_pos hw] at h
          cases h
        · rw [if_neg hw] at h
          rw [if_neg hw]
          cases hrec : runImage false f { st with warn := st.warn + 1 } cs with
          | error e =>
            rw [hrec] at h
            cases h
          | ok trip =>
            obtain ⟨st1, ev1, ps1⟩ := trip
            rw [hrec] at h
            simp only [Except.ok.injEq, Prod.mk.injEq] at h
            obtain ⟨h1, h2, h3⟩ := h
            obtain ⟨evL, hL, hno, hfp⟩ := ih cs _ st1 ev1 ps1 hdo hrec
            refine ⟨Event.warnInvalid :: evL, ?_, ?_, ?_⟩
            · simp only [hL]
              rw [h1, h3]
            · intro e he
              rcases List.mem_cons.mp he with rfl | hm
              · rfl
              · exact hno e hm
            · rw [← h3]
              simpa [pathOfPrint] using hfp
      | header =>
        simp only [fileDataOk, hcl] at hdo
        simp only [hcl] at h ⊢
        cases hadd : add_object st c.oh c.tag with
        | error e =>
          rw [hadd] at h
          cases h
        | ok pr =>
          obtain ⟨st1, obj⟩ := pr
          rw [hadd] at h
          dsimp only at h
          rw [if_neg (show ¬(false = true) by simp)] at h
          simp only [hadd]
          rw [if_pos trivial]
          cases hmat : materialize st1 c.oh c.tag obj cs with
          | error e =>
            rw [hmat] at h
            cases h
          | ok pr2 =>
            obtain ⟨evs, rest'⟩ := pr2
            rw [hmat] at h
            dsimp only at h
            cases hrec : runImage false f st1 rest' with
            | error e =>
              rw [hrec] at h
              cases h
            | ok trip =>
              obtain ⟨st2, ev2, ps2⟩ := trip
              rw [hrec] at h
              simp only [Except.ok.injEq, Prod.mk.injEq] at h
              obtain ⟨h1, h2, h3⟩ := h
              by_cases hfile : c.oh.type = TYPE_FILE
              · obtain ⟨content, hcons⟩ :=
                  materialize_file_shape _ _ _ _ _ _ _ hmat hfile
                rw [if_pos hfile] at hdo
                simp only [hcons] at hdo
                rw [Bool.and_eq_true, Bool.and_eq_true] at hdo
                obtain ⟨⟨hfsz, hcok⟩, hnext⟩ := hdo
                have hfsz' : c.oh.fileSize ≤ 2147483647 := of_decide_eq_true hfsz
                have hskip : skipData c.oh.fileSize cs = some rest' := by
                  rw [skipData_eq_consumeData_ok cs c.oh.fileSize hfsz' hcok, hcons]
                  rfl
                obtain ⟨evL, hL, hno, hfp⟩ := ih rest' st1 st2 ev2 ps2 hnext hrec
                refine ⟨Event.printPath obj.path_name :: evL, ?_, ?_, ?_⟩
                · rw [if_pos hfile]
                  simp only [hskip, hL]
                  rw [h1, h3]
                · intro e he
                  rcases List.mem_cons.mp he with rfl | hm
                  · rfl
                  · exact hno e hm
                · rw [← h3]
                  simp [pathOfPrint, hfp]
              · have hrest : rest' = cs :=
                  materialize_nonfile_rest _ _ _ _ _ _ _ hmat hfile
                subst hrest
                rw [if_neg hfile] at hdo
                obtain ⟨evL, hL, hno, hfp⟩ := ih rest' st1 st2 ev2 ps2 hdo hrec
                refine ⟨Event.printPath obj.path_name :: evL, ?_, ?_, ?_⟩
                · rw [if_neg hfile]
                  simp only [hL]
                  rw [h1, h3]
                · intro e he
                  rcases List.mem_cons.mp he with rfl | hm
                  · rfl
                  · exact hno e hm
                · rw [← h3]
                  simp [pathOfPrint, hfp]

/-- Witness for the amended C9 on a concrete image that does contain an
erased 0xFFFFFFFF chunk — between the zero-length FILE "a" and the
DIRECTORY "d", outside any data region, so `fileDataOk` holds: the -t
run prints exactly the extraction's path sequence ["a", "d"]. -/
theorem c9_list_mode_amended_witness :
    (runImage true 3 init_obj_list
        [⟨⟨1, 1, ['a'], 0, 0, 0, 0, 0, 0, 0, [], 0⟩, ⟨0, 2, 0, 0xffff⟩, []⟩,
         ⟨⟨0, 0, [], 0, 0, 0, 0, 0, 0, 0, [], 0⟩, ⟨0, 0, 0, 0xffffffff⟩, [9, 9, 9, 9, 9]⟩,
         ⟨⟨3, 1, ['d'], 0, 0, 0, 0, 0, 0, 0, [], 0⟩, ⟨0, 3, 0, 0xffff⟩, []⟩]).toOption.map
      (fun r => r.2.2) = some [['a'], ['d']] := by
  have hok : isOkE (runImage false 3 init_obj_list
      [⟨⟨1, 1, ['a'], 0, 0, 0, 0, 0, 0, 0, [], 0⟩, ⟨0, 2, 0, 0xffff⟩, []⟩,
       ⟨⟨0, 0, [], 0, 0, 0, 0, 0, 0, 0, [], 0⟩, ⟨0, 0, 0, 0xffffffff⟩, [9, 9, 9, 9, 9]⟩,
       ⟨⟨3, 1, ['d'], 0, 0, 0, 0, 0, 0, 0, [], 0⟩, ⟨0, 3, 0, 0xffff⟩, []⟩]) = true := by rfl
  rcases hE : runImage false 3 init_obj_list
      [⟨⟨1, 1, ['a'], 0, 0, 0, 0, 0, 0, 0, [], 0⟩, ⟨0, 2, 0, 0xffff⟩, []⟩,
       ⟨⟨0, 0, [], 0, 0, 0, 0, 0, 0, 0, [], 0⟩, ⟨0, 0, 0, 0xffffffff⟩, [9, 9, 9, 9, 9]⟩,
       ⟨⟨3, 1, ['d'], 0, 0, 0, 0, 0, 0, 0, [], 0⟩, ⟨0, 3, 0, 0xffff⟩, []⟩] with e | trip
  · rw [hE] at hok
    simp [isOkE] at hok
  · obtain ⟨st', ev, ps⟩ := trip
    have hps : ps = [['a'], ['d']] := by
      have h2 : (runImage false 3 init_obj_list
          [⟨⟨1, 1, ['a'], 0, 0, 0, 0, 0, 0, 0, [], 0⟩, ⟨0, 2, 0, 0xffff⟩, []⟩,
           ⟨⟨0, 0, [], 0, 0, 0, 0, 0, 0, 0, [], 0⟩, ⟨0, 0, 0, 0xffffffff⟩, [9, 9, 9, 9, 9]⟩,
           ⟨⟨3, 1, ['d'], 0, 0, 0, 0, 0, 0, 0, [], 0⟩, ⟨0, 3, 0, 0xffff⟩, []⟩]).toOption.map
        (fun r => r.2.2) = some [['a'], ['d']] := by rfl
      rw [hE] at h2
      simpa [Except.toOption] using h2
    obtain ⟨evL, hL, hno, hfp⟩ := c9_list_mode_amended 3 _ init_obj_list st' ev ps
      (by rfl) hE
    rw [hL]
    simp [Except.toOption, hps]
